import Mathlib

/-! Settings resolution layer of CuraEngine (`src/settings/settings.cpp`).

A shallow embedding of the settings store (`SettingsBase`), the forwarding
proxy (`SettingsMessenger`) and the typed accessors of `SettingsBaseVirtual`.

Objects live in a heap, a list of nodes; a pointer is an index into that list
and `NULL` is `none`.  Calls to `logError` are recorded in a log that is part
of the state.  Recursion through `parent` pointers is bounded by a fuel
argument, and the theorems show that a chain of `n` nodes needs fuel `n`.
-/

set_option exponentiation.threshold 4096
set_option maxRecDepth 100000

namespace cura

/-! ## Outcomes -/

/-- Ways in which a call does not return normally. -/
inductive Abort where
  /-- the recursion budget of the embedding is exhausted -/
  | fuel
  /-- undefined behaviour in C++: dereference of a null or dangling pointer,
  `atoi` of an integer that does not fit in `int` -/
  | undefinedBehaviour
  /-- a C++ exception leaves the function; the argument names its class -/
  | exception (cls : String)
  deriving DecidableEq, Repr

instance instDecidableEqExcept {ε α : Type} [DecidableEq ε] [DecidableEq α] :
    DecidableEq (Except ε α)
  | .ok a, .ok b => if h : a = b then isTrue (by rw [h]) else isFalse (fun e => h (by cases e; rfl))
  | .error a, .error b =>
    if h : a = b then isTrue (by rw [h]) else isFalse (fun e => h (by cases e; rfl))
  | .ok _, .error _ => isFalse (fun e => by cases e)
  | .error _, .ok _ => isFalse (fun e => by cases e)

/-! ## The store -/

/-- The `std::map<std::string, std::string> setting_values` of a `SettingsBase`,
as an association list; only `find`, `at` and `operator[]` are used by the code. -/
abbrev SettingMap := List (String × String)

/-- Lookup as done by `setting_values.find(key)` followed by `at(key)`. -/
def SettingMap.find : SettingMap → String → Option String
  | [], _ => none
  | (k, v) :: m, key => if k = key then some v else SettingMap.find m key

/-- Assignment `setting_values[key] = value`: overwrites the entry of `key` or adds one. -/
def SettingMap.assign : SettingMap → String → String → SettingMap
  | [], key, value => [(key, value)]
  | (k, v) :: m, key, value =>
      if k = key then (k, value) :: m else (k, v) :: SettingMap.assign m key value

/-- Modelled from the spec: the classes are declared in `settings.h`.  An object of one
of the two concrete classes derived from `SettingsBaseVirtual`; both carry the inherited
field `parent` (a non-owning pointer, `none` for `NULL`), a store also its mapping. -/
inductive Node where
  /-- `SettingsBase`: owns `setting_values` -/
  | base (setting_values : SettingMap) (parent : Option Nat)
  /-- `SettingsMessenger`: no storage, forwards to `parent` -/
  | messenger (parent : Option Nat)
  deriving DecidableEq, Repr

/-- The inherited field `parent`. -/
def Node.parent : Node → Option Nat
  | .base _ p => p
  | .messenger p => p

/-- The local mapping of a node; a `SettingsMessenger` has none. -/
def Node.values : Node → SettingMap
  | .base m _ => m
  | .messenger _ => []

/-- Modelled from the spec: the log sink of `utils/logoutput.h` receives formatted notices.
One recorded call `logError(fmt, args...)`. -/
structure LogCall where
  fmt : String
  args : List String
  deriving DecidableEq, Repr

/-- Program state: the objects and the diagnostics emitted so far. -/
structure World where
  heap : List Node
  log : List LogCall
  deriving DecidableEq, Repr

/-- The call `cura::logError(fmt, args...)`. -/
def logError (w : World) (fmt : String) (args : List String) : World :=
  { w with log := w.log ++ [⟨fmt, args⟩] }

/-- The statement `setting_values[key] = value` executed on the `SettingsBase` at `this`. -/
def storeLocal (w : World) (this : Nat) (m : SettingMap) (parent : Option Nat)
    (key value : String) : World :=
  { w with heap := w.heap.set this (.base (m.assign key value) parent) }

/-- `SettingsBase::_setSetting` -/
def _setSetting (w : World) (this : Nat) (m : SettingMap) (parent : Option Nat)
    (key value : String) : World :=
  storeLocal w this m parent key value

/-- The virtual call `this->setSetting(key, value)`: `SettingsBase::setSetting` on a
store, `SettingsMessenger::setSetting` on a proxy.  `settingExists` is the answer of
`SettingRegistry::getInstance()->settingExists`. -/
def setSetting (settingExists : String → Bool) :
    Nat → World → Nat → String → String → Except Abort World
  | 0, _, _, _, _ => .error .fuel
  | fuel + 1, w, this, key, value =>
    match w.heap[this]? with
    | none => .error .undefinedBehaviour
    | some (.base m parent) =>
      if settingExists key then
        .ok (_setSetting w this m parent key value)
      else
        .ok (_setSetting
          (logError w "Warning: setting an unregistered setting %s to %s\n" [key, value])
          this m parent key value)
    | some (.messenger parent) =>
      match parent with
      | none => .error .undefinedBehaviour
      | some p => setSetting settingExists fuel w p key value

/-- The virtual call `this->getSettingString(key)`: `SettingsBase::getSettingString`
on a store, `SettingsMessenger::getSettingString` on a proxy.  Returns the string
and the state after the call (the call writes through `const_cast`). -/
def getSettingString : Nat → World → Nat → String → Except Abort (String × World)
  | 0, _, _, _ => .error .fuel
  | fuel + 1, w, this, key =>
    match w.heap[this]? with
    | none => .error .undefinedBehaviour
    | some (.base m parent) =>
      match m.find key with
      | some v => .ok (v, w)
      | none =>
        match parent with
        | some p => getSettingString fuel w p key
        | none => .ok ("", logError (storeLocal w this m none key "") "Unregistered setting %s\n" [key])
    | some (.messenger parent) =>
      match parent with
      | none => .error .undefinedBehaviour
      | some p => getSettingString fuel w p key

/-- The `parent` pointer of the object at `i`, when there is an object at `i`. -/
def parentOf (heap : List Node) (i : Nat) : Option (Option Nat) :=
  (heap[i]?).map Node.parent

/-- The value the object at `i` holds locally for `key`, if any. -/
def localFind (heap : List Node) (i : Nat) (key : String) : Option String :=
  match heap[i]? with
  | some n => n.values.find key
  | none => none

/-- `isChain heap path`: every entry of `path` but the last is an object whose
`parent` points to the next entry. -/
def isChain (heap : List Node) : List Nat → Bool
  | [] => true
  | [_] => true
  | i :: j :: rest => decide (parentOf heap i = some (some j)) && isChain heap (j :: rest)

/-! ## Conversions of the C and C++ libraries

The accessors hand the resolved string to `atoi`, `atof`/`strtod` and `std::stod`.
These read a text up to the first character that does not fit the number syntax; a NUL
never fits, so reading the `std::string` and reading its `c_str()` agree. -/

/-- `isspace` in the "C" locale. -/
def isspace (c : Char) : Bool :=
  c == ' ' || c == '\t' || c == '\n' || c == Char.ofNat 11 || c == Char.ofNat 12 || c == '\r'

/-- `isdigit` -/
def isdigit (c : Char) : Bool :=
  decide ('0' ≤ c) && decide (c ≤ '9')

/-- `isxdigit` -/
def isxdigit (c : Char) : Bool :=
  isdigit c || (decide ('a' ≤ c) && decide (c ≤ 'f')) || (decide ('A' ≤ c) && decide (c ≤ 'F'))

/-- Value of a decimal or hexadecimal digit. -/
def digitValue (c : Char) : Nat :=
  if isdigit c then c.toNat - 48
  else if decide ('a' ≤ c) && decide (c ≤ 'f') then c.toNat - 87
  else c.toNat - 55

/-- Value of a run of digits in the given base. -/
def digitsValue (base : Nat) (ds : List Char) : Nat :=
  ds.foldl (fun acc c => base * acc + digitValue c) 0

/-- Splits an optional sign off the text: whether it is `-`, and what follows. -/
def splitSign : List Char → Bool × List Char
  | [] => (false, [])
  | c :: t => if c = '-' then (true, t) else if c = '+' then (false, t) else (false, c :: t)

/-- The text of an optional sign: none, `+` (`some false`) or `-` (`some true`). -/
def optionalSign : Option Bool → List Char
  | none => []
  | some true => ['-']
  | some false => ['+']

/-- `INT_MAX` of a 32-bit `int`. -/
def INT_MAX : Int := 2147483647

/-- `INT_MIN` of a 32-bit `int`. -/
def INT_MIN : Int := -2147483648

/-- The integer `strtol(s, NULL, 10)` reads at the head of `s`: white space, an optional
sign, decimal digits; `0` when there is no digit. -/
def leadingInteger (s : List Char) : Int :=
  let r := splitSign (s.dropWhile isspace)
  let n : Int := digitsValue 10 (r.2.takeWhile isdigit)
  if r.1 then -n else n

/-- `atoi(value.c_str())`.  The C standard leaves the call undefined when the integer
cannot be represented in `int` (glibc then returns the low 32 bits of a `long`, so
`atoi("4294967296")` is `0` there). -/
def atoi (value : String) : Except Abort Int :=
  let n := leadingInteger value.toList
  if INT_MIN ≤ n ∧ n ≤ INT_MAX then .ok n else .error .undefinedBehaviour

/-- A `double` (IEEE 754 binary64).  A finite value is written as the exact number it
is, `(-1)^negative * num / den` in lowest terms (`den` is a power of two); `negative`
is the sign bit, so there are two zeros. -/
inductive Double where
  | finite (negative : Bool) (num den : Nat)
  | infinity (negative : Bool)
  | nan
  deriving DecidableEq, Repr

/-- The finite double denoted by `num / den`. -/
def Double.ofRatio (negative : Bool) (num den : Nat) : Double :=
  .finite negative (num / Nat.gcd num den) (den / Nat.gcd num den)

/-- The double of a natural number. -/
def Double.ofNat (n : Nat) : Double := .finite false n 1

/-- Number of binary digits of `n`; the first argument bounds the recursion, and `n`
itself is enough. -/
def bitLength : Nat → Nat → Nat
  | 0, _ => 0
  | fuel + 1, n => if n = 0 then 0 else 1 + bitLength fuel (n / 2)

/-- The integer nearest to `a / b`, the even one of two that are equally near. -/
def roundHalfEven (a b : Nat) : Nat :=
  if 2 * (a % b) < b then a / b
  else if b < 2 * (a % b) then a / b + 1
  else if (a / b) % 2 = 0 then a / b else a / b + 1

/-- The exponent `e` with `2^e ≤ num / den < 2^(e+1)`, for positive `num` and `den`. -/
def binaryExponent (num den : Nat) : Int :=
  let k : Int := (bitLength num num : Int) - (bitLength den den : Int)
  if 0 ≤ k then (if den * 2 ^ k.toNat ≤ num then k else k - 1)
  else (if den ≤ num * 2 ^ (-k).toNat then k else k - 1)

/-- Rounding of the number `num / den` to the nearest double, ties to even (the default
rounding mode): 53 significant bits, not finer than `2^-1074`; infinity from `2^1024` on. -/
def Double.round (negative : Bool) (num den : Nat) : Double :=
  if num = 0 then .finite negative 0 1
  else
    let t : Int := max (binaryExponent num den - 52) (-1074)
    if 0 ≤ t then
      if 2 ^ 1024 ≤ roundHalfEven num (den * 2 ^ t.toNat) * 2 ^ t.toNat then .infinity negative
      else .finite negative (roundHalfEven num (den * 2 ^ t.toNat) * 2 ^ t.toNat) 1
    else Double.ofRatio negative (roundHalfEven (num * 2 ^ (-t).toNat) den) (2 ^ (-t).toNat)

/-- Tininess after rounding, for a positive `num / den` below `2^-1022`: rounded to 53
significant bits without a bound on the exponent, the value is still below `2^-1022`. -/
def tinyAfterRounding (num den : Nat) : Bool :=
  decide (roundHalfEven (num * 2 ^ (52 - binaryExponent num den).toNat) den
    < 2 ^ (-970 - binaryExponent num den).toNat)

/-- What `strtod` hands back for the exact value `num / den` of a text, and whether it
sets `errno` to `ERANGE`.  The result is correctly rounded, as in glibc.  On overflow (the
value rounds beyond `DBL_MAX`, that is it reaches `2^1024 - 2^970`) the result is
`HUGE_VAL` with `ERANGE`, as the C standard requires.  For an underflow C lets the
implementation choose; glibc on x86-64 sets `ERANGE` when the result is inexact (the value
is not a multiple of `2^-1074`) and tiny after rounding. -/
def strtodRange (negative : Bool) (num den : Nat) : Double × Bool :=
  if (2 ^ 1024 - 2 ^ 970) * den ≤ num then (.infinity negative, true)
  else if num * 2 ^ 1022 < den ∧ (num * 2 ^ 1074) % den ≠ 0 ∧ tinyAfterRounding num den = true
  then (Double.round negative num den, true)
  else (Double.round negative num den, false)

/-- The value `mant * base ^ e` as `strtod` returns it. -/
def strtodScaled (negative : Bool) (mant base : Nat) (e : Int) : Double × Bool :=
  if 0 ≤ e then strtodRange negative (mant * base ^ e.toNat) 1
  else strtodRange negative mant (base ^ (-e).toNat)

/-- The optional exponent part: the letter `mark` (either case), an optional sign and
at least one decimal digit; `0` when there is none. -/
def exponentPart (mark : Char) : List Char → Int
  | [] => 0
  | c :: t =>
    if c.toLower = mark then
      let r := splitSign t
      let n : Int := digitsValue 10 (r.2.takeWhile isdigit)
      if r.1 then -n else n
    else 0

/-- Whether `s` starts with the lower-case word `word`, ignoring case in `s`. -/
def startsWithNoCase : List Char → List Char → Bool
  | [], _ => true
  | _ :: _, [] => false
  | a :: word, c :: s => c.toLower == a && startsWithNoCase word s

/-- The number syntax of `strtod` in base `base` (10 or 16) with exponent letter `mark`:
digits with an optional point, then an optional exponent.  `none` when there is no digit. -/
def strtodNumber (negative : Bool) (base : Nat) (isDig : Char → Bool) (mark : Char)
    (expBase : Nat) (perDigit : Nat) (s : List Char) : Option (Double × Bool) :=
  let ip := s.takeWhile isDig
  let r := s.dropWhile isDig
  let fp := match r with
    | c :: t => if c = '.' then t.takeWhile isDig else []
    | [] => []
  let r2 := match r with
    | c :: t => if c = '.' then t.dropWhile isDig else r
    | [] => []
  if ip ++ fp = [] then none
  else
    let mant := digitsValue base (ip ++ fp)
    let e := exponentPart mark r2 - (perDigit * fp.length : Nat)
    some (strtodScaled negative mant expBase e)

/-- The text after a leading `0x` or `0X`, if there is one. -/
def afterHexMark : List Char → Option (List Char)
  | a :: b :: t => if a = '0' ∧ b.toLower = 'x' then some t else none
  | _ => none

/-- `strtod(s, &endptr)`: `none` when no conversion is performed (`endptr == s`),
else the value returned and whether `errno` is set to `ERANGE`. -/
def strtod (s : List Char) : Option (Double × Bool) :=
  let r := splitSign (s.dropWhile isspace)
  if startsWithNoCase ['i', 'n', 'f'] r.2 then some (.infinity r.1, false)
  else if startsWithNoCase ['n', 'a', 'n'] r.2 then some (.nan, false)
  else
    match (afterHexMark r.2).bind (strtodNumber r.1 16 isxdigit 'p' 2 4) with
    | some v => some v
    | none => strtodNumber r.1 10 isdigit 'e' 10 1 r.2

/-- Result of `std::stod`: a value, or one of the two exceptions it throws. -/
inductive StodResult where
  | ok (value : Double)
  | invalid_argument
  | out_of_range
  deriving DecidableEq, Repr

/-- `std::stod(str)`: calls `strtod`; throws `std::invalid_argument` when no conversion
is performed and `std::out_of_range` when `errno` is `ERANGE`. -/
def stod (str : List Char) : StodResult :=
  match strtod str with
  | none => .invalid_argument
  | some (v, erange) => if erange then .out_of_range else .ok v

/-! ## Arithmetic on doubles -/

/-- The double `1.0`. -/
def Double.one : Double := .finite false 1 1

/-- The double `0.0`. -/
def Double.zero : Double := .finite false 0 1

/-- The double `1000.0`. -/
def Double.thousand : Double := .finite false 1000 1

/-- Numerator with its sign, as an integer. -/
def signedNum (negative : Bool) (num : Nat) : Int :=
  if negative then -(num : Int) else (num : Int)

/-- The comparison `a < b` of doubles: false when an operand is NaN. -/
def Double.lt : Double → Double → Bool
  | .nan, _ => false
  | _, .nan => false
  | .infinity s, .infinity t => s && !t
  | .infinity s, .finite _ _ _ => s
  | .finite _ _ _, .infinity t => !t
  | .finite s n d, .finite t m e => decide (signedNum s n * (e : Int) < signedNum t m * (d : Int))

/-- The comparison `a == b` of doubles: false when an operand is NaN, true for the two
zeros. -/
def Double.eq : Double → Double → Bool
  | .nan, _ => false
  | _, .nan => false
  | .infinity s, .infinity t => s == t
  | .infinity _, .finite _ _ _ => false
  | .finite _ _ _, .infinity _ => false
  | .finite s n d, .finite t m e => decide (signedNum s n * (e : Int) = signedNum t m * (d : Int))

/-- The comparison `a <= b` of doubles. -/
def Double.le (a b : Double) : Bool :=
  a.lt b || a.eq b

/-- `std::max(a, b)`, which is `(a < b) ? b : a`. -/
def Double.max (a b : Double) : Double :=
  if a.lt b then b else a

/-- The product `a * b` of doubles, rounded to nearest. -/
def Double.mul : Double → Double → Double
  | .nan, _ => .nan
  | _, .nan => .nan
  | .infinity s, .infinity t => .infinity (s != t)
  | .infinity s, .finite t m _ => if m = 0 then .nan else .infinity (s != t)
  | .finite s n _, .infinity t => if n = 0 then .nan else .infinity (s != t)
  | .finite s n d, .finite t m e => Double.round (s != t) (n * m) (d * e)

/-- Conversion of a `double` to `int`: the fraction is discarded; undefined when the
result does not fit in `int` (also for infinities and NaN). -/
def Double.toInt : Double → Except Abort Int
  | .finite s n d =>
    if INT_MIN ≤ signedNum s (n / d) ∧ signedNum s (n / d) ≤ INT_MAX then
      .ok (signedNum s (n / d))
    else .error .undefinedBehaviour
  | _ => .error .undefinedBehaviour

/-- `atof(value.c_str())`, that is `strtod(value.c_str(), NULL)`: `0.0` when no conversion
is performed, `HUGE_VAL` (an infinity) on overflow. -/
def atof (value : String) : Double :=
  match strtod value.toList with
  | none => Double.zero
  | some (v, _) => v

/-! ## Typed accessors -/

/-- `SettingsBaseVirtual::getSettingBoolean` -/
def getSettingBoolean (fuel : Nat) (w : World) (this : Nat) (key : String) :
    Except Abort (Bool × World) :=
  match getSettingString fuel w this key with
  | .error e => .error e
  | .ok (value, w1) =>
    if value = "on" then .ok (true, w1)
    else if value = "yes" then .ok (true, w1)
    else if value = "true" ∨ value = "True" then .ok (true, w1)
    else
      match atoi value with
      | .error e => .error e
      | .ok num => .ok (num != 0, w1)

/-- `SettingsBaseVirtual::getSettingAsIndex` -/
def getSettingAsIndex (fuel : Nat) (w : World) (this : Nat) (key : String) :
    Except Abort (Int × World) :=
  match getSettingString fuel w this key with
  | .error e => .error e
  | .ok (value, w1) =>
    match atoi value with
    | .error e => .error e
    | .ok n => .ok (n, w1)

/-- `SettingsBaseVirtual::getSettingAsCount` -/
def getSettingAsCount (fuel : Nat) (w : World) (this : Nat) (key : String) :
    Except Abort (Int × World) :=
  match getSettingString fuel w this key with
  | .error e => .error e
  | .ok (value, w1) =>
    match atoi value with
    | .error e => .error e
    | .ok n => .ok (n, w1)

/-- `SettingsBaseVirtual::getSettingInMillimeters` -/
def getSettingInMillimeters (fuel : Nat) (w : World) (this : Nat) (key : String) :
    Except Abort (Double × World) :=
  match getSettingString fuel w this key with
  | .error e => .error e
  | .ok (value, w1) => .ok (atof value, w1)

/-- `SettingsBaseVirtual::getSettingInMicrons`: the product is a `double`, the return
type is `int`. -/
def getSettingInMicrons (fuel : Nat) (w : World) (this : Nat) (key : String) :
    Except Abort (Int × World) :=
  match getSettingInMillimeters fuel w this key with
  | .error e => .error e
  | .ok (mm, w1) =>
    match (mm.mul Double.thousand).toInt with
    | .error e => .error e
    | .ok n => .ok (n, w1)

/-- `SettingsBaseVirtual::getSettingInMillimetersPerSecond` -/
def getSettingInMillimetersPerSecond (fuel : Nat) (w : World) (this : Nat) (key : String) :
    Except Abort (Double × World) :=
  match getSettingString fuel w this key with
  | .error e => .error e
  | .ok (value, w1) => .ok (Double.max Double.one (atof value), w1)

/-- `SettingsBaseVirtual::getSettingInCubicMillimeters` -/
def getSettingInCubicMillimeters (fuel : Nat) (w : World) (this : Nat) (key : String) :
    Except Abort (Double × World) :=
  match getSettingString fuel w this key with
  | .error e => .error e
  | .ok (value, w1) => .ok (Double.max Double.zero (atof value), w1)

/-- `SettingsBaseVirtual::getSettingInPercentage` -/
def getSettingInPercentage (fuel : Nat) (w : World) (this : Nat) (key : String) :
    Except Abort (Double × World) :=
  match getSettingString fuel w this key with
  | .error e => .error e
  | .ok (value, w1) => .ok (Double.max Double.zero (atof value), w1)

/-- `SettingsBaseVirtual::getSettingInSeconds` -/
def getSettingInSeconds (fuel : Nat) (w : World) (this : Nat) (key : String) :
    Except Abort (Double × World) :=
  match getSettingString fuel w this key with
  | .error e => .error e
  | .ok (value, w1) => .ok (Double.max Double.zero (atof value), w1)

/-! ## Enumerated categories -/

/-- Modelled from the spec: `EGCodeFlavor` is declared in `settings.h`; these are the g-code flavors
that `settings.cpp` names. -/
inductive EGCodeFlavor where
  | BFB
  | MACH3
  | MAKERBOT
  | ULTIGCODE
  | REPRAP_VOLUMATRIC
  | GRIFFIN
  | REPRAP
  deriving DecidableEq, Repr

/-- Modelled from the spec: `EFillMethod` is declared in `settings.h`; these are the infill patterns
that `settings.cpp` names. -/
inductive EFillMethod where
  | LINES
  | GRID
  | CUBIC
  | TETRAHEDRAL
  | TRIANGLES
  | CONCENTRIC
  | ZIG_ZAG
  | NONE
  deriving DecidableEq, Repr

/-- Modelled from the spec: `EPlatformAdhesion` is declared in `settings.h`; these are the adhesion types
that `settings.cpp` names. -/
inductive EPlatformAdhesion where
  | SKIRT
  | BRIM
  | RAFT
  deriving DecidableEq, Repr

/-- Modelled from the spec: `ESupportType` is declared in `settings.h`; these are the support types
that `settings.cpp` names. -/
inductive ESupportType where
  | NONE
  | EVERYWHERE
  | PLATFORM_ONLY
  deriving DecidableEq, Repr

/-- Modelled from the spec: `EZSeamType` is declared in `settings.h`; these are the seam types
that `settings.cpp` names. -/
inductive EZSeamType where
  | RANDOM
  | SHORTEST
  | BACK
  deriving DecidableEq, Repr

/-- Modelled from the spec: `ESurfaceMode` is declared in `settings.h`; these are the surface modes
that `settings.cpp` names. -/
inductive ESurfaceMode where
  | NORMAL
  | SURFACE
  | BOTH
  deriving DecidableEq, Repr

/-- Modelled from the spec: `CombingMode` is declared in `settings.h`; these are the combing modes
that `settings.cpp` names. -/
inductive CombingMode where
  | OFF
  | ALL
  | NO_SKIN
  deriving DecidableEq, Repr

/-- Modelled from the spec: `SupportDistPriority` is declared in `settings.h`; these are the support-distance priorities
that `settings.cpp` names. -/
inductive SupportDistPriority where
  | XY_OVERRIDES_Z
  | Z_OVERRIDES_XY
  deriving DecidableEq, Repr

/-- `toString(EGCodeFlavor)` -/
def toString : EGCodeFlavor → String
  | .BFB => "BFB"
  | .MACH3 => "Mach3"
  | .MAKERBOT => "Makerbot"
  | .ULTIGCODE => "UltiGCode"
  | .REPRAP_VOLUMATRIC => "RepRap(Volumetric)"
  | .GRIFFIN => "Griffin"
  | .REPRAP => "RepRap"

/-- `SettingsBaseVirtual::getSettingAsGCodeFlavor` -/
def getSettingAsGCodeFlavor (fuel : Nat) (w : World) (this : Nat) (key : String) :
    Except Abort (EGCodeFlavor × World) :=
  match getSettingString fuel w this key with
  | .error e => .error e
  | .ok (value, w1) =>
    if value = "Griffin" then .ok (.GRIFFIN, w1)
    else if value = "UltiGCode" then .ok (.ULTIGCODE, w1)
    else if value = "Makerbot" then .ok (.MAKERBOT, w1)
    else if value = "BFB" then .ok (.BFB, w1)
    else if value = "MACH3" then .ok (.MACH3, w1)
    else if value = "RepRap (Volumatric)" then .ok (.REPRAP_VOLUMATRIC, w1)
    else .ok (.REPRAP, w1)

/-- `SettingsBaseVirtual::getSettingAsFillMethod` -/
def getSettingAsFillMethod (fuel : Nat) (w : World) (this : Nat) (key : String) :
    Except Abort (EFillMethod × World) :=
  match getSettingString fuel w this key with
  | .error e => .error e
  | .ok (value, w1) =>
    if value = "lines" then .ok (.LINES, w1)
    else if value = "grid" then .ok (.GRID, w1)
    else if value = "cubic" then .ok (.CUBIC, w1)
    else if value = "tetrahedral" then .ok (.TETRAHEDRAL, w1)
    else if value = "triangles" then .ok (.TRIANGLES, w1)
    else if value = "concentric" then .ok (.CONCENTRIC, w1)
    else if value = "zigzag" then .ok (.ZIG_ZAG, w1)
    else .ok (.NONE, w1)

/-- `SettingsBaseVirtual::getSettingAsPlatformAdhesion` -/
def getSettingAsPlatformAdhesion (fuel : Nat) (w : World) (this : Nat) (key : String) :
    Except Abort (EPlatformAdhesion × World) :=
  match getSettingString fuel w this key with
  | .error e => .error e
  | .ok (value, w1) =>
    if value = "brim" then .ok (.BRIM, w1)
    else if value = "raft" then .ok (.RAFT, w1)
    else .ok (.SKIRT, w1)

/-- `SettingsBaseVirtual::getSettingAsSupportType` -/
def getSettingAsSupportType (fuel : Nat) (w : World) (this : Nat) (key : String) :
    Except Abort (ESupportType × World) :=
  match getSettingString fuel w this key with
  | .error e => .error e
  | .ok (value, w1) =>
    if value = "everywhere" then .ok (.EVERYWHERE, w1)
    else if value = "buildplate" then .ok (.PLATFORM_ONLY, w1)
    else .ok (.NONE, w1)

/-- `SettingsBaseVirtual::getSettingAsZSeamType` -/
def getSettingAsZSeamType (fuel : Nat) (w : World) (this : Nat) (key : String) :
    Except Abort (EZSeamType × World) :=
  match getSettingString fuel w this key with
  | .error e => .error e
  | .ok (value, w1) =>
    if value = "random" then .ok (.RANDOM, w1)
    else if value = "shortest" then .ok (.SHORTEST, w1)
    else if value = "back" then .ok (.BACK, w1)
    else .ok (.SHORTEST, w1)

/-- `SettingsBaseVirtual::getSettingAsSurfaceMode` -/
def getSettingAsSurfaceMode (fuel : Nat) (w : World) (this : Nat) (key : String) :
    Except Abort (ESurfaceMode × World) :=
  match getSettingString fuel w this key with
  | .error e => .error e
  | .ok (value, w1) =>
    if value = "normal" then .ok (.NORMAL, w1)
    else if value = "surface" then .ok (.SURFACE, w1)
    else if value = "both" then .ok (.BOTH, w1)
    else .ok (.NORMAL, w1)

/-- `SettingsBaseVirtual::getSettingAsCombingMode` -/
def getSettingAsCombingMode (fuel : Nat) (w : World) (this : Nat) (key : String) :
    Except Abort (CombingMode × World) :=
  match getSettingString fuel w this key with
  | .error e => .error e
  | .ok (value, w1) =>
    if value = "off" then .ok (.OFF, w1)
    else if value = "all" then .ok (.ALL, w1)
    else if value = "noskin" then .ok (.NO_SKIN, w1)
    else .ok (.ALL, w1)

/-- `SettingsBaseVirtual::getSettingAsSupportDistPriority` -/
def getSettingAsSupportDistPriority (fuel : Nat) (w : World) (this : Nat) (key : String) :
    Except Abort (SupportDistPriority × World) :=
  match getSettingString fuel w this key with
  | .error e => .error e
  | .ok (value, w1) =>
    if value = "xy_overrides_z" then .ok (.XY_OVERRIDES_Z, w1)
    else if value = "z_overrides_xy" then .ok (.Z_OVERRIDES_XY, w1)
    else .ok (.XY_OVERRIDES_Z, w1)

/-- One attempt to match the regular expression `(\[([^,\[]*),([^,\]]*)\])` at the head
of the text: an opening bracket, the longest run without comma and opening bracket, a
comma, the longest run without comma and closing bracket, a closing bracket.  Returns the
two inner groups and the text after the match.  Both runs are greedy, and a shorter run
is followed by a character of its own class, never by the comma or bracket that must
follow it, so backtracking finds nothing the longest run does not. -/
def matchPairAt : List Char → Option (List Char × List Char × List Char)
  | [] => none
  | c :: s =>
    if c = '[' then
      match s.dropWhile (fun x => x != ',' && x != '[') with
      | [] => none
      | d :: t =>
        if d = ',' then
          match t.dropWhile (fun x => x != ',' && x != ']') with
          | [] => none
          | e :: rest =>
            if e = ']' then
              some (s.takeWhile (fun x => x != ',' && x != '['),
                t.takeWhile (fun x => x != ',' && x != ']'), rest)
            else none
        else none
    else none

/-- `std::regex_search`: the match starting at the leftmost position that has one. -/
def regexSearch : List Char → Option (List Char × List Char × List Char)
  | [] => none
  | c :: s =>
    match matchPairAt (c :: s) with
    | some r => some r
    | none => regexSearch s

/-- The successive matches a `std::regex_token_iterator` walks through, each search
starting where the previous match ended; per match the sub-matches 2 and 3.  A match
consumes at least three characters, so `n` rounds exhaust a text of length `n`. -/
def regexMatches : Nat → List Char → List (List Char × List Char)
  | 0, _ => []
  | n + 1, s =>
    match regexSearch s with
    | none => []
    | some (a, b, rest) => (a, b) :: regexMatches n rest

/-- Modelled from the spec: `FlowTempGraph` is declared in `settings.h`; its `data` is the
ordered sequence of (flow, temperature) pairs. -/
structure FlowTempGraph where
  data : List (Double × Double)
  deriving DecidableEq, Repr

/-- The `while` loop of `getSettingAsFlowTempGraph` over the matches still to come.
`std::invalid_argument` is caught and logged; `std::out_of_range` has no handler and
leaves the function. -/
def flowTempLoop (key : String) :
    List (List Char × List Char) → FlowTempGraph → World → Except Abort (FlowTempGraph × World)
  | [], ret, w => .ok (ret, w)
  | (first_substring, second_substring) :: more, ret, w =>
    match stod first_substring with
    | .invalid_argument =>
      flowTempLoop key more ret
        (logError w "Couldn't read 2D graph element [%s,%s] in setting '%s'. Ignored.\n"
          [String.mk first_substring, String.mk second_substring, key])
    | .out_of_range => .error (.exception "std::out_of_range")
    | .ok first =>
      match stod second_substring with
      | .invalid_argument =>
        flowTempLoop key more ret
          (logError w "Couldn't read 2D graph element [%s,%s] in setting '%s'. Ignored.\n"
            [String.mk first_substring, String.mk second_substring, key])
      | .out_of_range => .error (.exception "std::out_of_range")
      | .ok second => flowTempLoop key more ⟨ret.data ++ [(first, second)]⟩ w

/-- `SettingsBaseVirtual::getSettingAsFlowTempGraph` -/
def getSettingAsFlowTempGraph (fuel : Nat) (w : World) (this : Nat) (key : String) :
    Except Abort (FlowTempGraph × World) :=
  match getSettingString fuel w this key with
  | .error e => .error e
  | .ok (value_string, w1) =>
    if value_string.toList = [] then .ok (⟨[]⟩, w1)
    else
      flowTempLoop key (regexMatches value_string.toList.length value_string.toList) ⟨[]⟩ w1

/-- The point a token `[x,y]` contributes when both texts convert; `none` for a token
that is skipped. -/
def tokenPoint (t : List Char × List Char) : Option (Double × Double) :=
  match stod t.1, stod t.2 with
  | .ok a, .ok b => some (a, b)
  | _, _ => none

/-- The notice logged for a token that is skipped. -/
def tokenNotice (key : String) (t : List Char × List Char) : LogCall :=
  ⟨"Couldn't read 2D graph element [%s,%s] in setting '%s'. Ignored.\n",
    [String.mk t.1, String.mk t.2, key]⟩

/-! ## Input texts of the flow-temperature claims -/

/-- The text `[a,b]`. -/
def renderPair (a b : List Char) : List Char :=
  '[' :: a ++ ',' :: b ++ [']']

/-- The text `[[a1,b1],...,[an,bn]]`. -/
def renderGraph (texts : List (List Char × List Char)) : List Char :=
  '[' :: List.intercalate [','] (texts.map fun t => renderPair t.1 t.2) ++ [']']

/-- What follows the first token of `[[a1,b1],...,[an,bn]]`. -/
def renderTail : List (List Char × List Char) → List Char
  | [] => [']']
  | t :: ts => ',' :: (renderPair t.1 t.2 ++ renderTail ts)

/-- A text together with the number it is read as. -/
structure NumericLiteral where
  text : List Char
  value : Double
  deriving DecidableEq, Repr

/-- A numeric literal: a text free of comma and brackets that `std::stod` converts to
the value. -/
def NumericLiteral.valid (l : NumericLiteral) : Prop :=
  (∀ c ∈ l.text, c ≠ ',' ∧ c ≠ '[' ∧ c ≠ ']') ∧ stod l.text = .ok l.value

instance (l : NumericLiteral) : Decidable l.valid := by
  unfold NumericLiteral.valid
  exact inferInstance

/-- A decimal floating literal `[-]d..d[.d..d][e[-]d..d]`: sign, digits before the point,
digits after the point when there is a point, sign and digits of the exponent when there
is one. -/
structure DecimalLiteral where
  negative : Bool
  intDigits : List Char
  fracDigits : Option (List Char)
  exponent : Option (Bool × List Char)
  deriving DecidableEq, Repr

/-- The text of the sign. -/
def signText (negative : Bool) : List Char :=
  if negative then ['-'] else []

/-- The text of the exponent of a decimal literal. -/
def DecimalLiteral.exponentText (l : DecimalLiteral) : List Char :=
  match l.exponent with
  | none => []
  | some (neg, ds) => 'e' :: (signText neg ++ ds)

/-- The text of the fraction of a decimal literal. -/
def DecimalLiteral.fracText (l : DecimalLiteral) : List Char :=
  match l.fracDigits with
  | none => []
  | some f => '.' :: f

/-- The text of a decimal literal. -/
def DecimalLiteral.text (l : DecimalLiteral) : List Char :=
  signText l.negative ++ (l.intDigits ++ (l.fracText ++ l.exponentText))

/-- Well-formedness of a decimal literal: all parts consist of decimal digits, and there
is at least one digit before the point and in the exponent. -/
def DecimalLiteral.wellFormed (l : DecimalLiteral) : Prop :=
  l.intDigits ≠ [] ∧ (∀ c ∈ l.intDigits, isdigit c = true) ∧
  (∀ f, l.fracDigits = some f → ∀ c ∈ f, isdigit c = true) ∧
  (∀ neg ds, l.exponent = some (neg, ds) → ds ≠ [] ∧ ∀ c ∈ ds, isdigit c = true)

/-- The exponent a decimal literal denotes. -/
def DecimalLiteral.exponentValue (l : DecimalLiteral) : Int :=
  match l.exponent with
  | none => 0
  | some (neg, ds) => if neg then -(digitsValue 10 ds : Int) else (digitsValue 10 ds : Int)

/-- The number a decimal literal denotes, `mantissa * 10 ^ (exponent - fraction digits)`,
as a double, and whether it is out of the range of doubles. -/
def DecimalLiteral.scaled (l : DecimalLiteral) : Double × Bool :=
  strtodScaled l.negative (digitsValue 10 (l.intDigits ++ (l.fracDigits.getD []))) 10
    (l.exponentValue - ((1 * (l.fracDigits.getD []).length : Nat) : Int))

/-! ## Theorems -/

/-! ### The map -/

theorem SettingMap.find_assign_same (m : SettingMap) (k v : String) :
    (m.assign k v).find k = some v := by
  induction m with
  | nil => simp [SettingMap.assign, SettingMap.find]
  | cons e m ih =>
    obtain ⟨k1, v1⟩ := e
    by_cases h : k1 = k
    · simp [SettingMap.assign, SettingMap.find, h]
    · simp [SettingMap.assign, SettingMap.find, h, ih]

theorem SettingMap.find_assign_other (m : SettingMap) (k v k2 : String) (h : k2 ≠ k) :
    (m.assign k v).find k2 = m.find k2 := by
  induction m with
  | nil =>
    have h2 : ¬ k = k2 := fun e => h e.symm
    simp [SettingMap.assign, SettingMap.find, h2]
  | cons e m ih =>
    obtain ⟨k1, v1⟩ := e
    by_cases h1 : k1 = k
    · subst h1
      have h2 : ¬ k1 = k2 := fun e => h e.symm
      simp [SettingMap.assign, SettingMap.find, h2]
    · by_cases h3 : k1 = k2
      · subst h3
        simp [SettingMap.assign, SettingMap.find, h]
      · simp [SettingMap.assign, SettingMap.find, h1, h3, ih]

/-! ### Reading and writing one store -/

theorem heap_set_self (heap : List Node) (i : Nat) (n n2 : Node) (h : heap[i]? = some n) :
    (heap.set i n2)[i]? = some n2 := by
  have hlt : i < heap.length := by
    by_contra hge
    rw [List.getElem?_eq_none (by omega)] at h
    cases h
  simp [List.getElem?_set, hlt]

theorem heap_set_other (heap : List Node) (i j : Nat) (n2 : Node) (h : j ≠ i) :
    (heap.set i n2)[j]? = heap[j]? := by
  rw [List.getElem?_set]
  have h2 : ¬ i = j := fun e => h e.symm
  simp [h2]

/-- A store that holds `key` locally answers from its own mapping with one unit of fuel. -/
theorem getSettingString_local (w : World) (i : Nat) (m : SettingMap) (par : Option Nat)
    (k v : String) (fuel : Nat) (hn : w.heap[i]? = some (.base m par))
    (hk : m.find k = some v) :
    getSettingString (fuel + 1) w i k = .ok (v, w) := by
  simp [getSettingString, hn, hk]

/-- What `setSetting` does when it returns: one store's mapping gets `key := value`, and
the log grows by the warning exactly when the registry does not know the key. -/
theorem setSetting_spec (reg : String → Bool) (fuel : Nat) (w w2 : World) (i : Nat)
    (k v : String) (h : setSetting reg fuel w i k v = .ok w2) :
    ∃ j m par, w.heap[j]? = some (.base m par) ∧
      w2.heap = w.heap.set j (.base (m.assign k v) par) ∧
      w2.log = if reg k then w.log
        else w.log ++ [⟨"Warning: setting an unregistered setting %s to %s\n", [k, v]⟩] := by
  induction fuel generalizing i with
  | zero => simp [setSetting] at h
  | succ f ih =>
    unfold setSetting at h
    split at h
    · cases h
    · rename_i m par hn
      refine ⟨i, m, par, hn, ?_⟩
      by_cases hr : reg k = true
      · simp only [hr, if_true] at h
        cases h
        simp [_setSetting, storeLocal, hr]
      · simp only [hr] at h
        cases h
        simp [_setSetting, storeLocal, logError, hr]
    · rename_i par hn
      cases par with
      | none => cases h
      | some p => exact ih p h

/-! ### Lookup along a parent chain -/

theorem parentOf_eq_some (heap : List Node) (i j : Nat)
    (h : parentOf heap i = some (some j)) :
    ∃ n, heap[i]? = some n ∧ n.parent = some j := by
  unfold parentOf at h
  cases hn : heap[i]? with
  | none => simp [hn] at h
  | some n =>
    refine ⟨n, rfl, ?_⟩
    simpa [hn] using h

theorem localFind_eq_some (heap : List Node) (i : Nat) (k v : String)
    (h : localFind heap i k = some v) :
    ∃ m par, heap[i]? = some (.base m par) ∧ m.find k = some v := by
  unfold localFind at h
  cases hn : heap[i]? with
  | none => simp [hn] at h
  | some n =>
    cases n with
    | base m par => exact ⟨m, par, rfl, by simpa [hn, Node.values] using h⟩
    | messenger par => simp [hn, Node.values, SettingMap.find] at h

/-- An object without a local value for `key` and with a parent hands the call on. -/
theorem getSettingString_step (w : World) (i j : Nat) (k : String) (fuel : Nat)
    (hp : parentOf w.heap i = some (some j)) (hk : localFind w.heap i k = none) :
    getSettingString (fuel + 1) w i k = getSettingString fuel w j k := by
  obtain ⟨n, hn, hpar⟩ := parentOf_eq_some _ _ _ hp
  cases n with
  | base m par =>
    have hm : m.find k = none := by simpa [localFind, hn, Node.values] using hk
    have hpar2 : par = some j := by simpa [Node.parent] using hpar
    simp [getSettingString, hn, hm, hpar2]
  | messenger par =>
    have hpar2 : par = some j := by simpa [Node.parent] using hpar
    simp [getSettingString, hn, hpar2]

/-- Walking a chain whose nodes (the last apart) lack `key` costs one unit of fuel per
link and arrives at the last node with the state untouched. -/
theorem getSettingString_descend (w : World) (k : String) (rest : List Nat) :
    ∀ (s0 : Nat) (fuel : Nat), isChain w.heap (s0 :: rest) = true →
      (∀ i ∈ (s0 :: rest).dropLast, localFind w.heap i k = none) →
      getSettingString (rest.length + fuel) w s0 k
        = getSettingString fuel w (rest.getLastD s0) k := by
  induction rest with
  | nil => intro s0 fuel _ _; simp
  | cons j rest ih =>
    intro s0 fuel hc hnone
    have hc2 : parentOf w.heap s0 = some (some j) ∧ isChain w.heap (j :: rest) = true := by
      simpa [isChain] using hc
    have h0 : localFind w.heap s0 k = none := hnone s0 (by simp [List.dropLast])
    have hrest : ∀ i ∈ (j :: rest).dropLast, localFind w.heap i k = none := by
      intro i hi
      apply hnone i
      simp only [List.dropLast_cons₂, List.mem_cons]
      exact Or.inr hi
    have e : (j :: rest).length + fuel = (rest.length + fuel) + 1 := by
      simp only [List.length_cons]; omega
    rw [e, getSettingString_step w s0 j k _ hc2.1 h0, ih j fuel hc2.2 hrest]
    rw [List.getLastD_cons]

/-- When some node of the chain holds `key`, the lookup returns and changes nothing. -/
theorem getSettingString_found (w : World) (k : String) (rest : List Nat) :
    ∀ (s0 : Nat) (fuel : Nat), isChain w.heap (s0 :: rest) = true →
      (s0 :: rest).length ≤ fuel →
      (∃ i ∈ s0 :: rest, localFind w.heap i k ≠ none) →
      ∃ v, getSettingString fuel w s0 k = .ok (v, w) := by
  induction rest with
  | nil =>
    intro s0 fuel _ hf hex
    obtain ⟨i, hi, hne⟩ := hex
    have : i = s0 := by simpa using hi
    subst this
    cases hl : localFind w.heap i k with
    | none => exact absurd hl hne
    | some v =>
      obtain ⟨m, par, hn, hm⟩ := localFind_eq_some _ _ _ _ hl
      obtain ⟨f, rfl⟩ : ∃ f, fuel = f + 1 := ⟨fuel - 1, by simp at hf; omega⟩
      exact ⟨v, getSettingString_local w i m par k v f hn hm⟩
  | cons j rest ih =>
    intro s0 fuel hc hf hex
    obtain ⟨f, rfl⟩ : ∃ f, fuel = f + 1 := ⟨fuel - 1, by simp at hf; omega⟩
    cases hl : localFind w.heap s0 k with
    | some v =>
      obtain ⟨m, par, hn, hm⟩ := localFind_eq_some _ _ _ _ hl
      exact ⟨v, getSettingString_local w s0 m par k v f hn hm⟩
    | none =>
      have hc2 : parentOf w.heap s0 = some (some j) ∧ isChain w.heap (j :: rest) = true := by
        simpa [isChain] using hc
      rw [getSettingString_step w s0 j k f hc2.1 hl]
      apply ih j f hc2.2 (by simp at hf ⊢; omega)
      obtain ⟨i, hi, hne⟩ := hex
      rcases List.mem_cons.mp hi with h | h
      · subst h; exact absurd hl hne
      · exact ⟨i, h, hne⟩

/-- After a `setSetting` that returned, reading the key back through the same object
returns the value written, with the same fuel. -/
theorem setSetting_read_back (reg : String → Bool) (k v : String) (fuel : Nat) :
    ∀ (w w2 : World) (i : Nat), setSetting reg fuel w i k v = .ok w2 →
      getSettingString fuel w2 i k = .ok (v, w2) := by
  induction fuel with
  | zero => intro w w2 i h; simp [setSetting] at h
  | succ f ih =>
    intro w w2 i h
    obtain ⟨j, m, par, hj, hheap, _⟩ := setSetting_spec reg (f + 1) w w2 i k v h
    cases hn : w.heap[i]? with
    | none => simp [setSetting, hn] at h
    | some n =>
      cases n with
      | base m1 par1 =>
        have hw2 : w2.heap = w.heap.set i (.base (m1.assign k v) par1) := by
          by_cases hr : reg k = true
          · simp [setSetting, hn, hr] at h
            rw [← h]; simp [_setSetting, storeLocal]
          · simp [setSetting, hn, hr] at h
            rw [← h]; simp [_setSetting, storeLocal, logError]
        apply getSettingString_local w2 i (m1.assign k v) par1 k v f
        · rw [hw2]; exact heap_set_self _ _ _ _ hn
        · exact SettingMap.find_assign_same m1 k v
      | messenger par1 =>
        cases par1 with
        | none => simp [setSetting, hn] at h
        | some d =>
          have h2 : setSetting reg f w d k v = .ok w2 := by simpa [setSetting, hn] using h
          have hji : i ≠ j := by
            intro e
            rw [e, hj] at hn
            cases hn
          have hi2 : w2.heap[i]? = some (.messenger (some d)) := by
            rw [hheap, heap_set_other _ _ _ _ hji, hn]
          simp [getSettingString, hi2, ih w w2 d h2]

/-! ### The regular expression on well-formed texts -/

theorem takeWhile_append_stop (p : Char → Bool) (a : List Char) (x : Char) (r : List Char)
    (ha : ∀ c ∈ a, p c = true) (hx : p x = false) :
    (a ++ x :: r).takeWhile p = a ∧ (a ++ x :: r).dropWhile p = x :: r := by
  induction a with
  | nil => simp [List.takeWhile, List.dropWhile, hx]
  | cons c a ih =>
    have hc : p c = true := ha c (List.mem_cons_self _ _)
    have ih2 := ih (fun d hd => ha d (List.mem_cons_of_mem _ hd))
    simp [List.takeWhile, List.dropWhile, hc, ih2.1, ih2.2]

/-- At the opening bracket of a token `[a,b]` the expression matches that token. -/
theorem matchPairAt_renderPair (a b rest : List Char)
    (ha : ∀ c ∈ a, c ≠ ',' ∧ c ≠ '[') (hb : ∀ c ∈ b, c ≠ ',' ∧ c ≠ ']') :
    matchPairAt (renderPair a b ++ rest) = some (a, b, rest) := by
  have h1 := takeWhile_append_stop (fun x => x != ',' && x != '[') a ','
    (b ++ ']' :: rest) (by intro c hc; simp [ha c hc]) (by simp)
  have h2 := takeWhile_append_stop (fun x => x != ',' && x != ']') b ']' rest
    (by intro c hc; simp [hb c hc]) (by simp)
  have e : renderPair a b ++ rest = '[' :: (a ++ ',' :: (b ++ ']' :: rest)) := by
    simp [renderPair]
  rw [e]
  simp only [matchPairAt, if_true, h1.1, h1.2, h2.1, h2.2]

theorem regexSearch_renderPair (a b rest : List Char)
    (ha : ∀ c ∈ a, c ≠ ',' ∧ c ≠ '[') (hb : ∀ c ∈ b, c ≠ ',' ∧ c ≠ ']') :
    regexSearch (renderPair a b ++ rest) = some (a, b, rest) := by
  have h := matchPairAt_renderPair a b rest ha hb
  have e : renderPair a b ++ rest = '[' :: (a ++ ',' :: (b ++ ']' :: rest)) := by
    simp [renderPair]
  rw [e] at h ⊢
  simp only [regexSearch, h]

theorem renderGraph_nil : renderGraph [] = ['[', ']'] := by
  simp [renderGraph, List.intercalate]

theorem intercalate_comma_cons (x : List Char) (xs : List (List Char × List Char)) :
    List.intercalate [','] (x :: xs.map fun t => renderPair t.1 t.2) ++ [']']
      = x ++ renderTail xs := by
  induction xs generalizing x with
  | nil => simp [List.intercalate, renderTail]
  | cons y ys ih =>
    have h := ih (renderPair y.1 y.2)
    simp only [List.intercalate, List.map_cons, List.intersperse_cons₂, List.flatten_cons,
      List.append_assoc] at h ⊢
    rw [h]
    simp [renderTail]

theorem renderGraph_cons (t : List Char × List Char) (ts : List (List Char × List Char)) :
    renderGraph (t :: ts) = '[' :: (renderPair t.1 t.2 ++ renderTail ts) := by
  simp only [renderGraph, List.map_cons, List.cons_append]
  rw [intercalate_comma_cons]

theorem regexSearch_skip (c : Char) (s : List Char) (h : matchPairAt (c :: s) = none) :
    regexSearch (c :: s) = regexSearch s := by
  simp only [regexSearch, h]

theorem regexMatches_succ (n : Nat) (s a b rest : List Char)
    (h : regexSearch s = some (a, b, rest)) :
    regexMatches (n + 1) s = (a, b) :: regexMatches n rest := by
  simp only [regexMatches, h]

theorem length_dropWhile_le_self (p : Char → Bool) (l : List Char) :
    (l.dropWhile p).length ≤ l.length := by
  induction l with
  | nil => simp
  | cons c l ih =>
    by_cases h : p c = true
    · simp only [List.dropWhile_cons_of_pos h, List.length_cons]; omega
    · simp [List.dropWhile_cons_of_neg h]

/-- A match consumes at least three characters. -/
theorem matchPairAt_length (s a b rest : List Char) (h : matchPairAt s = some (a, b, rest)) :
    rest.length + 3 ≤ s.length := by
  cases s with
  | nil => simp [matchPairAt] at h
  | cons c s =>
    simp only [matchPairAt] at h
    by_cases hc : c = '['
    · rw [if_pos hc] at h
      have h1 := length_dropWhile_le_self (fun x => x != ',' && x != '[') s
      cases hd : s.dropWhile (fun x => x != ',' && x != '[') with
      | nil => rw [hd] at h; cases h
      | cons d t =>
        rw [hd] at h h1
        simp only at h
        by_cases hdc : d = ','
        · rw [if_pos hdc] at h
          have h2 := length_dropWhile_le_self (fun x => x != ',' && x != ']') t
          cases he : t.dropWhile (fun x => x != ',' && x != ']') with
          | nil => rw [he] at h; cases h
          | cons e r =>
            rw [he] at h h2
            simp only at h
            by_cases hec : e = ']'
            · rw [if_pos hec] at h
              simp only [Option.some.injEq, Prod.mk.injEq] at h
              obtain ⟨-, -, rfl⟩ := h
              simp only [List.length_cons] at h1 h2 ⊢
              omega
            · rw [if_neg hec] at h; cases h
        · rw [if_neg hdc] at h; cases h
    · rw [if_neg hc] at h; cases h

theorem regexSearch_length (s : List Char) :
    ∀ a b rest, regexSearch s = some (a, b, rest) → rest.length + 3 ≤ s.length := by
  induction s with
  | nil => intro a b rest h; simp [regexSearch] at h
  | cons c s ih =>
    intro a b rest h
    unfold regexSearch at h
    cases hm : matchPairAt (c :: s) with
    | some r =>
      obtain ⟨a2, b2, r2⟩ := r
      rw [hm] at h
      simp only [Option.some.injEq, Prod.mk.injEq] at h
      obtain ⟨rfl, rfl, rfl⟩ := h
      exact matchPairAt_length _ _ _ _ hm
    | none =>
      rw [hm] at h
      have := ih a b rest h
      simp only [List.length_cons]
      omega

/-- The round budget of `regexMatches` is never binding once it reaches the length of
the text: the list of matches is the same for every larger budget. -/
theorem regexMatches_fuel (n : Nat) :
    ∀ (m : Nat) (s : List Char), s.length ≤ n → s.length ≤ m →
      regexMatches n s = regexMatches m s := by
  induction n with
  | zero =>
    intro m s hn _
    have hs : s = [] := List.length_eq_zero.mp (by omega)
    subst hs
    cases m <;> simp [regexMatches, regexSearch]
  | succ n ih =>
    intro m s hn hm
    cases m with
    | zero =>
      have hs : s = [] := List.length_eq_zero.mp (by omega)
      subst hs
      simp [regexMatches, regexSearch]
    | succ m =>
      cases hr : regexSearch s with
      | none => simp [regexMatches, hr]
      | some r =>
        obtain ⟨a, b, rest⟩ := r
        have hl := regexSearch_length s a b rest hr
        rw [regexMatches_succ n s a b rest hr, regexMatches_succ m s a b rest hr,
          ih m rest (by omega) (by omega)]

theorem regexMatches_renderTail (ts : List (List Char × List Char))
    (hs : ∀ t ∈ ts, (∀ c ∈ t.1, c ≠ ',' ∧ c ≠ '[') ∧ (∀ c ∈ t.2, c ≠ ',' ∧ c ≠ ']')) :
    ∀ n, ts.length < n → regexMatches n (renderTail ts) = ts := by
  induction ts with
  | nil =>
    intro n hn
    obtain ⟨k, rfl⟩ : ∃ k, n = k + 1 := ⟨n - 1, by simp at hn; omega⟩
    simp [regexMatches, renderTail, regexSearch, matchPairAt]
  | cons t ts ih =>
    intro n hn
    obtain ⟨k, rfl⟩ : ∃ k, n = k + 1 := ⟨n - 1, by simp at hn; omega⟩
    have ht := hs t (List.mem_cons_self _ _)
    have hsearch : regexSearch (renderTail (t :: ts)) = some (t.1, t.2, renderTail ts) := by
      show regexSearch (',' :: (renderPair t.1 t.2 ++ renderTail ts)) = _
      rw [regexSearch_skip _ _ (by simp [matchPairAt])]
      exact regexSearch_renderPair t.1 t.2 (renderTail ts) ht.1 ht.2
    rw [regexMatches_succ k _ _ _ _ hsearch,
      ih (fun u hu => hs u (List.mem_cons_of_mem _ hu)) k (by simp at hn; omega)]

theorem length_renderTail (ts : List (List Char × List Char)) :
    ts.length < (renderTail ts).length := by
  induction ts with
  | nil => simp [renderTail]
  | cons t ts ih => simp [renderTail, renderPair]; omega

/-- The token iterator finds the tokens of `[[a1,b1],...,[an,bn]]`, in order. -/
theorem regexMatches_renderGraph (ts : List (List Char × List Char))
    (hs : ∀ t ∈ ts, (∀ c ∈ t.1, c ≠ ',' ∧ c ≠ '[') ∧ (∀ c ∈ t.2, c ≠ ',' ∧ c ≠ ']')) :
    regexMatches (renderGraph ts).length (renderGraph ts) = ts := by
  cases ts with
  | nil =>
    rw [renderGraph_nil]
    decide
  | cons t ts =>
    have ht := hs t (List.mem_cons_self _ _)
    rw [renderGraph_cons]
    have hsearch : regexSearch ('[' :: (renderPair t.1 t.2 ++ renderTail ts))
        = some (t.1, t.2, renderTail ts) := by
      rw [regexSearch_skip _ _ (by simp [matchPairAt, renderPair])]
      exact regexSearch_renderPair t.1 t.2 (renderTail ts) ht.1 ht.2
    have hl := length_renderTail ts
    rw [List.length_cons, regexMatches_succ _ _ _ _ _ hsearch,
      regexMatches_renderTail ts (fun u hu => hs u (List.mem_cons_of_mem _ hu)) _
        (by simp [renderPair]; omega)]

/-- The loop turns tokens that `std::stod` converts into points, in order, and logs
nothing. -/
theorem flowTempLoop_valid (key : String) (lits : List (NumericLiteral × NumericLiteral))
    (hv : ∀ l ∈ lits, l.1.valid ∧ l.2.valid) :
    ∀ (acc : List (Double × Double)) (w : World),
      flowTempLoop key (lits.map fun l => (l.1.text, l.2.text)) ⟨acc⟩ w
        = .ok (⟨acc ++ lits.map fun l => (l.1.value, l.2.value)⟩, w) := by
  induction lits with
  | nil => intro acc w; simp [flowTempLoop]
  | cons l ls ih =>
    intro acc w
    have hl := hv l (List.mem_cons_self _ _)
    simp only [List.map_cons, flowTempLoop, hl.1.2, hl.2.2]
    rw [ih (fun u hu => hv u (List.mem_cons_of_mem _ hu))]
    simp

/-- Partial success of the loop: as long as no conversion is out of range, the loop
returns the points of the tokens whose two texts convert, in order, and logs one notice
for every other token. -/
theorem flowTempLoop_partial_success (key : String) (tokens : List (List Char × List Char))
    (hr : ∀ t ∈ tokens, stod t.1 ≠ .out_of_range ∧ stod t.2 ≠ .out_of_range) :
    ∀ (acc : List (Double × Double)) (w : World),
      flowTempLoop key tokens ⟨acc⟩ w
        = .ok (⟨acc ++ tokens.filterMap tokenPoint⟩,
            { w with log := w.log ++
              (tokens.filter fun t => (tokenPoint t).isNone).map (tokenNotice key) }) := by
  induction tokens with
  | nil => intro acc w; simp [flowTempLoop]
  | cons t ts ih =>
    intro acc w
    have ht := hr t (List.mem_cons_self _ _)
    have ih2 := ih (fun u hu => hr u (List.mem_cons_of_mem _ hu))
    obtain ⟨a, b⟩ := t
    cases h1 : stod a with
    | out_of_range => exact absurd h1 ht.1
    | invalid_argument =>
      simp only [flowTempLoop, h1, ih2, logError]
      simp [tokenPoint, h1, tokenNotice, List.filterMap_cons, List.filter_cons]
    | ok x =>
      cases h2 : stod b with
      | out_of_range => exact absurd h2 ht.2
      | invalid_argument =>
        simp only [flowTempLoop, h1, h2, ih2, logError]
        simp [tokenPoint, h1, h2, tokenNotice, List.filterMap_cons, List.filter_cons]
      | ok y =>
        simp only [flowTempLoop, h1, h2, ih2]
        simp [tokenPoint, h1, h2, List.filterMap_cons, List.filter_cons]

/-! ### Decimal literals are read by `strtod` -/

theorem isdigit_cases (c : Char) (h : isdigit c = true) :
    c ∈ ['0', '1', '2', '3', '4', '5', '6', '7', '8', '9'] := by
  simp only [isdigit, Bool.and_eq_true, decide_eq_true_eq] at h
  obtain ⟨h1, h2⟩ := h
  have h1n : 48 ≤ c.toNat := Char.le_def.mp h1
  have h2n : c.toNat ≤ 57 := Char.le_def.mp h2
  have hc : c = Char.ofNat c.toNat := (Char.ofNat_toNat c).symm
  generalize c.toNat = n at h1n h2n hc
  subst hc
  interval_cases n <;> decide

/-- A digit is no white space, sign, point, exponent mark, separator, nor the first
letter of `inf`, `nan` or of the `x` of a hexadecimal mark. -/
theorem isdigit_facts (c : Char) (h : isdigit c = true) :
    isspace c = false ∧ c ≠ '-' ∧ c ≠ '+' ∧ c ≠ '.' ∧ c.toLower ≠ 'e' ∧ c.toLower ≠ 'x' ∧
      (c.toLower == 'i') = false ∧ (c.toLower == 'n') = false ∧
      c ≠ ',' ∧ c ≠ '[' ∧ c ≠ ']' := by
  have hall : ∀ d ∈ ['0', '1', '2', '3', '4', '5', '6', '7', '8', '9'],
      isspace d = false ∧ d ≠ '-' ∧ d ≠ '+' ∧ d ≠ '.' ∧ d.toLower ≠ 'e' ∧ d.toLower ≠ 'x' ∧
      (d.toLower == 'i') = false ∧ (d.toLower == 'n') = false ∧
      d ≠ ',' ∧ d ≠ '[' ∧ d ≠ ']' := by decide
  exact hall c (isdigit_cases c h)

/-- A run of digits followed by nothing or by a character that is no digit is what
`takeWhile isdigit` takes. -/
theorem takeWhile_isdigit_run (ds rest : List Char) (hd : ∀ c ∈ ds, isdigit c = true)
    (hr : rest = [] ∨ ∃ x r, rest = x :: r ∧ isdigit x = false) :
    (ds ++ rest).takeWhile isdigit = ds ∧ (ds ++ rest).dropWhile isdigit = rest := by
  rcases hr with rfl | ⟨x, r, rfl, hx⟩
  · induction ds with
    | nil => simp
    | cons c ds ih =>
      have hc : isdigit c = true := hd c (List.mem_cons_self _ _)
      have ih2 := ih (fun d hd2 => hd d (List.mem_cons_of_mem _ hd2))
      simp only [List.append_nil] at ih2 ⊢
      simp [List.takeWhile, List.dropWhile, hc, ih2.1, ih2.2]
  · exact takeWhile_append_stop isdigit ds x r hd hx

theorem exponentText_head (l : DecimalLiteral) :
    l.exponentText = [] ∨ ∃ t, l.exponentText = 'e' :: t := by
  unfold DecimalLiteral.exponentText
  cases l.exponent with
  | none => exact Or.inl rfl
  | some p => exact Or.inr ⟨_, rfl⟩

theorem splitSign_signText (neg : Bool) (ds : List Char) (hne : ds ≠ [])
    (hd : ∀ c ∈ ds, isdigit c = true) :
    splitSign (signText neg ++ ds) = (neg, ds) := by
  cases neg with
  | true => simp [signText, splitSign]
  | false =>
    cases ds with
    | nil => exact absurd rfl hne
    | cons d t =>
      have hf := isdigit_facts d (hd d (List.mem_cons_self _ _))
      simp [signText, splitSign, hf.2.1, hf.2.2.1]

theorem exponentPart_exponentText (l : DecimalLiteral) (hw : l.wellFormed) :
    exponentPart 'e' l.exponentText = l.exponentValue := by
  unfold DecimalLiteral.exponentText DecimalLiteral.exponentValue
  cases he : l.exponent with
  | none => simp [exponentPart]
  | some p =>
    obtain ⟨neg, ds⟩ := p
    obtain ⟨hne, hd⟩ := hw.2.2.2 neg ds he
    have ht := (takeWhile_isdigit_run ds [] hd (Or.inl rfl)).1
    rw [List.append_nil] at ht
    have hlow : Char.toLower 'e' = 'e' := by decide
    simp only [exponentPart, hlow, if_true, splitSign_signText neg ds hne hd, ht]

/-- The syntax part of `strtod` on the digits of a decimal literal. -/
theorem strtodNumber_decimalLiteral (l : DecimalLiteral) (hw : l.wellFormed) :
    strtodNumber l.negative 10 isdigit 'e' 10 1
        (l.intDigits ++ (l.fracText ++ l.exponentText))
      = some l.scaled := by
  have hexp := exponentPart_exponentText l hw
  have hE : isdigit 'e' = false := by decide
  have hP : isdigit '.' = false := by decide
  have hne : ¬ ('e' = '.') := by decide
  have hi := hw.2.1
  unfold DecimalLiteral.scaled
  unfold DecimalLiteral.fracText at *
  cases hf : l.fracDigits with
  | none =>
    simp only [List.nil_append, Option.getD_none, List.append_nil, List.length_nil]
    rcases exponentText_head l with h0 | ⟨t, ht⟩
    · have hrun := takeWhile_isdigit_run l.intDigits [] hi (Or.inl rfl)
      rw [List.append_nil] at hrun
      rw [h0] at hexp ⊢
      simp only [strtodNumber, hrun.1, hrun.2, List.append_nil, hw.1, if_false, hexp,
        List.length_nil]
    · have hrun := takeWhile_isdigit_run l.intDigits ('e' :: t) hi
        (Or.inr ⟨'e', t, rfl, hE⟩)
      rw [ht] at hexp ⊢
      simp only [strtodNumber, hrun.1, hrun.2, hne, if_false, List.append_nil, hw.1, hexp,
        List.length_nil]
  | some f =>
    have hfd := hw.2.2.1 f hf
    have hrun := takeWhile_isdigit_run l.intDigits ('.' :: (f ++ l.exponentText)) hi
      (Or.inr ⟨'.', _, rfl, hP⟩)
    have hrun2 : (f ++ l.exponentText).takeWhile isdigit = f ∧
        (f ++ l.exponentText).dropWhile isdigit = l.exponentText := by
      apply takeWhile_isdigit_run f _ hfd
      rcases exponentText_head l with h0 | ⟨t, ht⟩
      · exact Or.inl h0
      · exact Or.inr ⟨'e', t, ht, hE⟩
    have hnn : ¬ (l.intDigits ++ f = []) := by
      intro h
      exact hw.1 (List.append_eq_nil.mp h).1
    simp only [List.cons_append, Option.getD_some, strtodNumber, hrun.1, hrun.2, if_true,
      hrun2.1, hrun2.2, hnn, if_false, hexp]

/-- The character after the first digit of a decimal literal, if any, is a digit, the
point or the exponent mark, hence not the `x` of a hexadecimal mark. -/
theorem decimalLiteral_second (l : DecimalLiteral) (ds : List Char)
    (hds : ∀ c ∈ ds, isdigit c = true) (b : Char) (t : List Char)
    (h : ds ++ (l.fracText ++ l.exponentText) = b :: t) : b.toLower ≠ 'x' := by
  cases ds with
  | cons c r =>
    simp only [List.cons_append, List.cons.injEq] at h
    rw [← h.1]
    exact (isdigit_facts c (hds c (List.mem_cons_self _ _))).2.2.2.2.2.1
  | nil =>
    simp only [List.nil_append] at h
    unfold DecimalLiteral.fracText at h
    cases hf : l.fracDigits with
    | some f =>
      rw [hf] at h
      simp only [List.cons_append, List.cons.injEq] at h
      rw [← h.1]
      decide
    | none =>
      rw [hf] at h
      simp only [List.nil_append] at h
      rcases exponentText_head l with h0 | ⟨u, hu⟩
      · rw [h0] at h; cases h
      · rw [hu] at h
        simp only [List.cons.injEq] at h
        rw [← h.1]
        decide

/-- `strtod` reads a well-formed decimal literal in full and returns the number it
denotes. -/
theorem strtod_decimalLiteral (l : DecimalLiteral) (hw : l.wellFormed) :
    strtod l.text = some l.scaled := by
  obtain ⟨d, ds, hid⟩ : ∃ d ds, l.intDigits = d :: ds := by
    cases h : l.intDigits with
    | nil => exact absurd h hw.1
    | cons d ds => exact ⟨d, ds, rfl⟩
  have hds : ∀ c ∈ ds, isdigit c = true :=
    fun c hc => hw.2.1 c (by rw [hid]; exact List.mem_cons_of_mem _ hc)
  have hf := isdigit_facts d (hw.2.1 d (by rw [hid]; exact List.mem_cons_self _ _))
  have hnum := strtodNumber_decimalLiteral l hw
  have hbody : l.intDigits ++ (l.fracText ++ l.exponentText)
      = d :: (ds ++ (l.fracText ++ l.exponentText)) := by rw [hid]; rfl
  have hsplit : splitSign (l.text.dropWhile isspace)
      = (l.negative, l.intDigits ++ (l.fracText ++ l.exponentText)) := by
    unfold DecimalLiteral.text
    rw [hbody]
    cases l.negative with
    | true =>
      have hs : isspace '-' = false := by decide
      simp [signText, List.dropWhile, hs, splitSign]
    | false =>
      simp [signText, List.dropWhile, hf.1, splitSign, hf.2.1, hf.2.2.1]
  have hinf : startsWithNoCase ['i', 'n', 'f'] (l.intDigits ++ (l.fracText ++ l.exponentText))
      = false := by
    rw [hbody]
    simp only [startsWithNoCase, hf.2.2.2.2.2.2.1, Bool.false_and]
  have hnan : startsWithNoCase ['n', 'a', 'n'] (l.intDigits ++ (l.fracText ++ l.exponentText))
      = false := by
    rw [hbody]
    simp only [startsWithNoCase, hf.2.2.2.2.2.2.2.1, Bool.false_and]
  have hhex : afterHexMark (l.intDigits ++ (l.fracText ++ l.exponentText)) = none := by
    rw [hbody]
    cases ht : ds ++ (l.fracText ++ l.exponentText) with
    | nil => rfl
    | cons b t =>
      have hb := decimalLiteral_second l ds hds b t ht
      simp [afterHexMark, hb]
  unfold strtod
  simp only [hsplit, hinf, hnan, hhex, Option.bind, hnum]
  rfl

/-- A well-formed decimal literal whose value is in the range of doubles is a numeric
literal: it holds no separator and `std::stod` converts it to the number it denotes. -/
theorem DecimalLiteral.valid_of_wellFormed (l : DecimalLiteral) (hw : l.wellFormed)
    (hr : l.scaled.2 = false) :
    NumericLiteral.valid ⟨l.text, l.scaled.1⟩ := by
  refine ⟨?_, ?_⟩
  · have hdig : ∀ c, isdigit c = true → c ≠ ',' ∧ c ≠ '[' ∧ c ≠ ']' :=
      fun c hc => (isdigit_facts c hc).2.2.2.2.2.2.2.2
    intro c hc
    simp only [DecimalLiteral.text, DecimalLiteral.fracText, DecimalLiteral.exponentText,
      List.mem_append] at hc
    rcases hc with hc | hc | hc | hc
    · cases hn : l.negative with
      | true =>
        rw [hn] at hc
        have : c = '-' := by simpa [signText] using hc
        subst this
        decide
      | false =>
        rw [hn] at hc
        simp [signText] at hc
    · exact hdig c (hw.2.1 c hc)
    · cases hf : l.fracDigits with
      | none => rw [hf] at hc; simp at hc
      | some f =>
        rw [hf] at hc
        rcases List.mem_cons.mp hc with h | h
        · subst h; decide
        · exact hdig c (hw.2.2.1 f hf c h)
    · cases he : l.exponent with
      | none => rw [he] at hc; simp at hc
      | some p =>
        obtain ⟨neg, es⟩ := p
        rw [he] at hc
        simp only [List.mem_cons, List.mem_append] at hc
        rcases hc with h | h | h
        · subst h; decide
        · cases neg with
          | true =>
            have : c = '-' := by simpa [signText] using h
            subst this
            decide
          | false => simp [signText] at h
        · exact hdig c ((hw.2.2.2 neg es he).2 c h)
  · show stod l.text = .ok l.scaled.1
    unfold stod
    rw [strtod_decimalLiteral l hw]
    cases hsc : l.scaled with
    | mk v e =>
      rw [hsc] at hr
      simp only at hr
      subst hr
      rfl

/-! ### Boolean parsing -/

/-- `getSettingBoolean` on a resolved value that is one of the four words or whose
leading integer is representable in `int`. -/
theorem getSettingBoolean_of_resolved (fuel : Nat) (w : World) (this : Nat) (key : String)
    (s : String) (w1 : World) (hres : getSettingString fuel w this key = .ok (s, w1))
    (hfit : s = "on" ∨ s = "yes" ∨ s = "true" ∨ s = "True" ∨
      (INT_MIN ≤ leadingInteger s.toList ∧ leadingInteger s.toList ≤ INT_MAX)) :
    getSettingBoolean fuel w this key
      = .ok (decide (s = "on" ∨ s = "yes" ∨ s = "true" ∨ s = "True" ∨
          leadingInteger s.toList ≠ 0), w1) := by
  unfold getSettingBoolean
  rw [hres]
  by_cases h1 : s = "on"
  · simp [h1]
  by_cases h2 : s = "yes"
  · simp [h2]
  by_cases h3 : s = "true"
  · simp [h3]
  by_cases h4 : s = "True"
  · simp [h4]
  have hr : INT_MIN ≤ leadingInteger s.toList ∧ leadingInteger s.toList ≤ INT_MAX := by
    rcases hfit with h | h | h | h | h
    · exact absurd h h1
    · exact absurd h h2
    · exact absurd h h3
    · exact absurd h h4
    · exact h
  have hb : (leadingInteger s.toList != 0)
      = decide (s = "on" ∨ s = "yes" ∨ s = "true" ∨ s = "True" ∨
          leadingInteger s.toList ≠ 0) := by
    simp only [h1, h2, h3, h4, false_or]
    generalize leadingInteger s.toList = x
    by_cases h0 : x = 0
    · subst h0; rfl
    · simp [h0]
  rw [← hb]
  simp only [h1, h2, h3, h4, or_self, if_false, atoi, hr, and_self, if_true]

/-! ### Integer parsing -/

/-- `atoi` reads white space, an optional sign and the longest run of digits: for a text
made of white space `ws`, a sign, digits and a rest that does not start with a digit, the
leading integer is the signed decimal value of the digits (`0` when there is none). -/
theorem leadingInteger_decomposed (ws : List Char) (sign : Option Bool) (digits rest : List Char)
    (hws : ∀ c ∈ ws, isspace c = true) (hd : ∀ c ∈ digits, isdigit c = true)
    (hrest : rest = [] ∨ ∃ x r, rest = x :: r ∧ isdigit x = false)
    (hbare : sign = none → digits = [] →
      rest = [] ∨ ∃ x r, rest = x :: r ∧ isspace x = false ∧ x ≠ '-' ∧ x ≠ '+') :
    leadingInteger (ws ++ (optionalSign sign ++ (digits ++ rest)))
      = if sign = some true then -(digitsValue 10 digits : Int) else (digitsValue 10 digits : Int) := by
  have hrun := takeWhile_isdigit_run digits rest hd hrest
  have hdrop : ∀ (x : Char) (r : List Char), isspace x = false →
      (ws ++ x :: r).dropWhile isspace = x :: r :=
    fun x r hx => (takeWhile_append_stop isspace ws x r hws hx).2
  have hm : isspace '-' = false := by decide
  have hp : isspace '+' = false := by decide
  unfold leadingInteger optionalSign
  cases sign with
  | some b =>
    cases b with
    | true =>
      simp only [List.cons_append, List.nil_append, hdrop '-' _ hm, splitSign, if_true,
        hrun.1]
    | false =>
      have hne : ¬ ('+' = '-') := by decide
      simp only [List.cons_append, List.nil_append, hdrop '+' _ hp, splitSign, hne, if_false,
        if_true, hrun.1]
      simp
  | none =>
    simp only [List.nil_append]
    cases digits with
    | cons d ds =>
      have hf := isdigit_facts d (hd d (List.mem_cons_self _ _))
      rw [List.cons_append] at hrun ⊢
      simp only [hdrop d _ hf.1, splitSign, hf.2.1, hf.2.2.1, if_false, hrun.1]
      simp
    | nil =>
      rcases hbare rfl rfl with h0 | ⟨x, r, hx, hsp, hxm, hxp⟩
      · subst h0
        have hall : ∀ l : List Char, (∀ c ∈ l, isspace c = true) →
            l.dropWhile isspace = [] := by
          intro l
          induction l with
          | nil => intro _; rfl
          | cons c t ih =>
            intro hl
            have hc : isspace c = true := hl c (List.mem_cons_self _ _)
            simp only [List.dropWhile_cons_of_pos hc]
            exact ih (fun a ha => hl a (List.mem_cons_of_mem _ ha))
        simp only [List.append_nil, hall ws hws, splitSign]
        simp [digitsValue]
      · subst hx
        rcases hrest with h | ⟨y, r2, hy, hyd⟩
        · cases h
        · simp only [List.cons.injEq] at hy
          obtain ⟨rfl, rfl⟩ := hy
          have ht : (x :: r).takeWhile isdigit = [] := by
            simp [List.takeWhile, hyd]
          simp only [List.nil_append, hdrop x r hsp, splitSign, hxm, hxp, if_false, ht]
          simp [digitsValue]

/-- A store accepts every write. -/
theorem setSetting_base_ok (reg : String → Bool) (w : World) (i : Nat) (m : SettingMap)
    (par : Option Nat) (k v : String) (f : Nat) (hn : w.heap[i]? = some (.base m par)) :
    ∃ w1, setSetting reg (f + 1) w i k v = .ok w1 := by
  by_cases hr : reg k = true
  · exact ⟨_setSetting w i m par k v, by simp only [setSetting, hn, hr, if_true]⟩
  · exact ⟨_setSetting
      (logError w "Warning: setting an unregistered setting %s to %s\n" [k, v]) i m par k v,
      by simp only [setSetting, hn, hr]; rfl⟩

/-! ### Order of doubles and `std::max` -/

/-- The result of `std::max(a, p)` is at least `a`, when `a` is not NaN. -/
theorem Double.le_max (a p : Double) (ha : a.eq a = true) :
    a.le (Double.max a p) = true := by
  unfold Double.max Double.le
  cases h : a.lt p with
  | true => simp [h]
  | false => simp [ha]

/-- When `a <= p`, `std::max(a, p)` compares equal to `p`. -/
theorem Double.max_eq_of_le (a p : Double) (hp : a.le p = true) :
    (Double.max a p).eq p = true := by
  unfold Double.max
  unfold Double.le at hp
  cases h : a.lt p with
  | true =>
    simp only [if_true]
    cases p with
    | nan => cases a <;> simp [Double.lt] at h
    | infinity t => simp [Double.eq]
    | finite t m e => simp [Double.eq]
  | false =>
    rw [h] at hp
    simpa using hp

/-- The order of doubles is asymmetric. -/
theorem Double.lt_asymm (p a : Double) (hp : p.lt a = true) : a.lt p = false := by
  cases a with
  | nan => cases p <;> simp [Double.lt] at hp
  | infinity s =>
    cases p with
    | nan => simp [Double.lt]
    | infinity t =>
      simp only [Double.lt, Bool.and_eq_true, Bool.not_eq_true'] at hp ⊢
      simp [hp.1, hp.2]
    | finite t m e =>
      simp only [Double.lt, Bool.not_eq_true'] at hp ⊢
      exact hp
  | finite s n d =>
    cases p with
    | nan => simp [Double.lt]
    | infinity t =>
      simp only [Double.lt] at hp ⊢
      simp [hp]
    | finite t m e =>
      simp only [Double.lt, decide_eq_true_eq, decide_eq_false_iff_not, not_lt] at hp ⊢
      exact le_of_lt hp

/-- When `p < a`, `std::max(a, p)` is `a`. -/
theorem Double.max_eq_left_of_lt (a p : Double) (hp : p.lt a = true) :
    Double.max a p = a := by
  simp [Double.max, Double.lt_asymm p a hp]

/-- The result of `std::max(a, p)` is never below `a`, when `a` is not NaN. -/
theorem Double.max_not_lt (a p : Double) (ha : a.lt a = false) :
    (Double.max a p).lt a = false := by
  unfold Double.max
  cases h : a.lt p with
  | true =>
    simp only [if_true]
    exact Double.lt_asymm a p h
  | false =>
    simpa using ha

/-- `atof` gives `0.0` for a text without a leading number. -/
theorem atof_of_no_conversion (s : String) (h : strtod s.toList = none) :
    atof s = Double.zero := by
  unfold atof
  rw [h]

/-! ### Lookups that do not pass through a changed store -/

/-- A lookup that resolves along a chain of parent links returns the same string in any
state that has the same objects on that chain. -/
theorem getSettingString_frame (w w2 : World) (k : String) (rest : List Nat) :
    ∀ (s0 : Nat) (fuel : Nat), isChain w.heap (s0 :: rest) = true →
      (∀ j ∈ s0 :: rest, w2.heap[j]? = w.heap[j]?) →
      ((∃ j ∈ s0 :: rest, localFind w.heap j k ≠ none) ∨
        ∃ m, w.heap[rest.getLastD s0]? = some (.base m none)) →
      (s0 :: rest).length ≤ fuel →
      ∃ v wa wb, getSettingString fuel w s0 k = .ok (v, wa) ∧
        getSettingString fuel w2 s0 k = .ok (v, wb) := by
  induction rest with
  | nil =>
    intro s0 fuel _ hag hcomp hf
    obtain ⟨f, rfl⟩ : ∃ f, fuel = f + 1 := ⟨fuel - 1, by simp at hf; omega⟩
    have h0 := hag s0 (List.mem_cons_self _ _)
    cases hl : localFind w.heap s0 k with
    | some v =>
      obtain ⟨m, par, hn, hm⟩ := localFind_eq_some _ _ _ _ hl
      exact ⟨v, w, w2, getSettingString_local w s0 m par k v f hn hm,
        getSettingString_local w2 s0 m par k v f (by rw [h0, hn]) hm⟩
    | none =>
      rcases hcomp with ⟨j, hj, hne⟩ | ⟨m, hm⟩
      · have : j = s0 := by simpa using hj
        subst this
        exact absurd hl hne
      · simp only [List.getLastD_nil] at hm
        have hk : m.find k = none := by
          unfold localFind at hl
          rw [hm] at hl
          exact hl
        refine ⟨"", logError (storeLocal w s0 m none k "") "Unregistered setting %s\n" [k],
          logError (storeLocal w2 s0 m none k "") "Unregistered setting %s\n" [k], ?_, ?_⟩
        · simp only [getSettingString, hm, hk]
        · simp only [getSettingString, h0, hm, hk]
  | cons j rest ih =>
    intro s0 fuel hc hag hcomp hf
    obtain ⟨f, rfl⟩ : ∃ f, fuel = f + 1 := ⟨fuel - 1, by simp at hf; omega⟩
    have h0 := hag s0 (List.mem_cons_self _ _)
    cases hl : localFind w.heap s0 k with
    | some v =>
      obtain ⟨m, par, hn, hm⟩ := localFind_eq_some _ _ _ _ hl
      exact ⟨v, w, w2, getSettingString_local w s0 m par k v f hn hm,
        getSettingString_local w2 s0 m par k v f (by rw [h0, hn]) hm⟩
    | none =>
      have hc2 : parentOf w.heap s0 = some (some j) ∧ isChain w.heap (j :: rest) = true := by
        simpa [isChain] using hc
      have hp2 : parentOf w2.heap s0 = some (some j) := by
        unfold parentOf
        rw [h0]
        exact hc2.1
      have hl2 : localFind w2.heap s0 k = none := by
        unfold localFind
        rw [h0]
        exact hl
      rw [getSettingString_step w s0 j k f hc2.1 hl, getSettingString_step w2 s0 j k f hp2 hl2]
      apply ih j f hc2.2 (fun a ha => hag a (List.mem_cons_of_mem _ ha))
      · rcases hcomp with ⟨a, ha, hne⟩ | ⟨m, hm⟩
        · rcases List.mem_cons.mp ha with h | h
          · subst h; exact absurd hl hne
          · exact Or.inl ⟨a, h, hne⟩
        · rw [List.getLastD_cons] at hm
          exact Or.inr ⟨m, hm⟩
      · simp at hf ⊢; omega

/-! ### Conversion of a double to an integer -/

/-- Discarding the fraction of `n / d` loses nothing exactly when `n / d` is an integer. -/
theorem Double.eq_truncated_iff (negative : Bool) (n d : Nat) :
    (Double.finite negative (n / d) 1).eq (.finite negative n d) = true ↔ n % d = 0 := by
  have hdm : d * (n / d) + n % d = n := Nat.div_add_mod n d
  have key : ((n / d : Nat) : Int) * (d : Int) = (n : Int) ↔ n % d = 0 := by
    constructor
    · intro h
      have h2 : (n / d) * d = n := by exact_mod_cast h
      rw [Nat.mul_comm] at h2
      omega
    · intro h
      have h2 : (n / d) * d = n := by
        rw [Nat.mul_comm]
        omega
      exact_mod_cast h2
  cases negative with
  | false =>
    simp only [Double.eq, signedNum, decide_eq_true_eq, Nat.cast_one, mul_one]
    simpa using key
  | true =>
    simp only [Double.eq, signedNum, decide_eq_true_eq, Nat.cast_one, mul_one, if_true,
      neg_mul, neg_inj]
    exact key

/-! ## The store contract -/

/-- C1 (write/read fidelity): on every `SettingsBase` store, with or without a parent,
`setSetting(k, v)` returns, and a following `getSettingString(k)` returns exactly `v`
and changes nothing.  The answer of the registry decides only whether the warning is
logged: the heap after the write is the same for any two registries. -/
theorem setSetting_then_getSettingString (reg reg2 : String → Bool) (w : World) (i : Nat)
    (m : SettingMap) (par : Option Nat) (k v : String) (f g : Nat)
    (hn : w.heap[i]? = some (.base m par)) :
    ∃ w1 w2, setSetting reg (f + 1) w i k v = .ok w1 ∧
      setSetting reg2 (f + 1) w i k v = .ok w2 ∧
      w1.heap = w2.heap ∧
      (w1.log = if reg k then w.log
        else w.log ++ [⟨"Warning: setting an unregistered setting %s to %s\n", [k, v]⟩]) ∧
      getSettingString (g + 1) w1 i k = .ok (v, w1) := by
  have key : ∀ r : String → Bool, ∃ w1, setSetting r (f + 1) w i k v = .ok w1 ∧
      w1.heap = w.heap.set i (.base (m.assign k v) par) ∧
      (w1.log = if r k then w.log
        else w.log ++ [⟨"Warning: setting an unregistered setting %s to %s\n", [k, v]⟩]) := by
    intro r
    by_cases hr : r k = true
    · refine ⟨_setSetting w i m par k v, by simp [setSetting, hn, hr], ?_, ?_⟩
      · simp [_setSetting, storeLocal]
      · simp [_setSetting, storeLocal, hr]
    · refine ⟨_setSetting
        (logError w "Warning: setting an unregistered setting %s to %s\n" [k, v]) i m par k v,
        by simp [setSetting, hn, hr], ?_, ?_⟩
      · simp [_setSetting, storeLocal, logError]
      · simp [_setSetting, storeLocal, logError, hr]
  obtain ⟨w1, h1, hh1, hl1⟩ := key reg
  obtain ⟨w2, h2, hh2, _⟩ := key reg2
  refine ⟨w1, w2, h1, h2, by rw [hh1, hh2], hl1, ?_⟩
  apply getSettingString_local w1 i (m.assign k v) par k v g
  · rw [hh1]; exact heap_set_self _ _ _ _ hn
  · exact SettingMap.find_assign_same m k v

/-- Instance of C1: a child store (parent at 0) written with an unregistered key. -/
theorem setSetting_then_getSettingString_witness :
    ∃ w1 w2,
      setSetting (fun _ => false) 1 ⟨[.base [("a", "1")] none, .base [] (some 0)], []⟩ 1 "a" "2"
        = .ok w1 ∧
      setSetting (fun _ => true) 1 ⟨[.base [("a", "1")] none, .base [] (some 0)], []⟩ 1 "a" "2"
        = .ok w2 ∧
      w1.heap = w2.heap ∧
      (w1.log = if (fun _ => false) "a" then []
        else [] ++ [⟨"Warning: setting an unregistered setting %s to %s\n", ["a", "2"]⟩]) ∧
      getSettingString 1 w1 1 "a" = .ok ("2", w1) :=
  setSetting_then_getSettingString (fun _ => false) (fun _ => true)
    ⟨[.base [("a", "1")] none, .base [] (some 0)], []⟩ 1 [] (some 0) "a" "2" 0 0 (by decide)

/-- C2 (parent-chain fallback): along a chain `s0 -> ... -> sn` of parent links, when
`k` is absent from the local mapping of every node before `sn` and `sn` holds `k = v`,
`s0.getSettingString(k)` returns `v` (fuel: one unit per node) and changes nothing. -/
theorem getSettingString_parent_fallback (w : World) (s0 : Nat) (rest : List Nat)
    (k v : String) (fuel : Nat)
    (hc : isChain w.heap (s0 :: rest) = true)
    (habsent : ∀ i ∈ (s0 :: rest).dropLast, localFind w.heap i k = none)
    (hlast : localFind w.heap (rest.getLastD s0) k = some v)
    (hf : (s0 :: rest).length ≤ fuel) :
    getSettingString fuel w s0 k = .ok (v, w) := by
  obtain ⟨f, rfl⟩ : ∃ f, fuel = rest.length + (f + 1) :=
    ⟨fuel - rest.length - 1, by simp at hf; omega⟩
  rw [getSettingString_descend w k rest s0 (f + 1) hc habsent]
  obtain ⟨m, par, hn, hm⟩ := localFind_eq_some _ _ _ _ hlast
  exact getSettingString_local w _ m par k v f hn hm

/-- Instance of C2: the child at 1 has no `a`, its direct parent at 0 holds `a = 1`. -/
theorem getSettingString_parent_fallback_witness :
    getSettingString 2 ⟨[.base [("a", "1")] none, .base [("b", "x")] (some 0)], []⟩ 1 "a"
      = .ok ("1", ⟨[.base [("a", "1")] none, .base [("b", "x")] (some 0)], []⟩) :=
  getSettingString_parent_fallback
    ⟨[.base [("a", "1")] none, .base [("b", "x")] (some 0)], []⟩ 1 [0] "a" "1" 2
    (by decide) (by decide) (by decide) (by decide)

/-- C3 (shadowing): a store whose local mapping holds `k = v` answers `v` with a single
unit of fuel, that is without calling its parent, in every heap (whatever any ancestor
holds for `k`, and even when the parent pointer dangles), and the state is unchanged. -/
theorem getSettingString_shadows (w : World) (i : Nat) (m : SettingMap) (par : Option Nat)
    (k v : String) (fuel : Nat) (hn : w.heap[i]? = some (.base m par))
    (hk : m.find k = some v) :
    getSettingString (fuel + 1) w i k = .ok (v, w) :=
  getSettingString_local w i m par k v fuel hn hk

/-- Instance of C3: the parent holds another value for the same key. -/
theorem getSettingString_shadows_witness :
    getSettingString 1 ⟨[.base [("a", "1")] none, .base [("a", "2")] (some 0)], []⟩ 1 "a"
      = .ok ("2", ⟨[.base [("a", "1")] none, .base [("a", "2")] (some 0)], []⟩) :=
  getSettingString_shadows ⟨[.base [("a", "1")] none, .base [("a", "2")] (some 0)], []⟩ 1
    [("a", "2")] (some 0) "a" "2" 0 (by decide) (by decide)

/-- C4 (missing-key self-healing): on a store without a parent, reading an absent key
returns the empty string, logs exactly one notice, and replaces the store's mapping by
one that maps the key to the empty string and agrees with the old one on every other
key; reading the key again on the resulting state returns the empty string and leaves
that state (heap and log) as it is. -/
theorem getSettingString_missing_self_heals (w : World) (i : Nat) (m : SettingMap)
    (k : String) (f g : Nat)
    (hn : w.heap[i]? = some (.base m none)) (hk : m.find k = none) :
    ∃ w2 m2, getSettingString (f + 1) w i k = .ok ("", w2) ∧
      w2.log = w.log ++ [⟨"Unregistered setting %s\n", [k]⟩] ∧
      w2.heap = w.heap.set i (.base m2 none) ∧
      m2.find k = some "" ∧ (∀ k2, k2 ≠ k → m2.find k2 = m.find k2) ∧
      getSettingString (g + 1) w2 i k = .ok ("", w2) := by
  refine ⟨logError (storeLocal w i m none k "") "Unregistered setting %s\n" [k],
    m.assign k "", by simp [getSettingString, hn, hk], by simp [logError, storeLocal],
    by simp [logError, storeLocal], SettingMap.find_assign_same m k "",
    fun k2 h2 => SettingMap.find_assign_other m k "" k2 h2, ?_⟩
  apply getSettingString_local _ i (m.assign k "") none k "" g
  · simpa [logError, storeLocal] using heap_set_self _ _ _ _ hn
  · exact SettingMap.find_assign_same m k ""

/-- Instance of C4: a root store holding only `a`, asked for `b`. -/
theorem getSettingString_missing_self_heals_witness :
    ∃ w2 m2, getSettingString 1 ⟨[.base [("a", "1")] none], []⟩ 0 "b" = .ok ("", w2) ∧
      w2.log = [] ++ [⟨"Unregistered setting %s\n", ["b"]⟩] ∧
      w2.heap = [Node.base [("a", "1")] none].set 0 (.base m2 none) ∧
      m2.find "b" = some "" ∧ (∀ k2, k2 ≠ "b" → m2.find k2 = SettingMap.find [("a", "1")] k2) ∧
      getSettingString 1 w2 0 "b" = .ok ("", w2) :=
  getSettingString_missing_self_heals ⟨[.base [("a", "1")] none], []⟩ 0 [("a", "1")] "b" 0 0
    (by decide) (by decide)

/-- C5 (caching is confined to the failing node): for a lookup issued at the bottom `s0`
of a chain of parent links, with one unit of fuel per node:
(a) when some node of the chain holds the key, the call returns and the state is unchanged;
(b) when no node holds it and the last node is a store without a parent, the call returns
the empty string, every object other than that root is unchanged, and the root's mapping
gains `k -> ""` and keeps every other key as it was. -/
theorem getSettingString_caches_at_root_only (w : World) (s0 : Nat) (rest : List Nat)
    (k : String) (fuel : Nat)
    (hc : isChain w.heap (s0 :: rest) = true) (hf : (s0 :: rest).length ≤ fuel) :
    ((∃ i ∈ s0 :: rest, localFind w.heap i k ≠ none) →
      ∃ v, getSettingString fuel w s0 k = .ok (v, w)) ∧
    ((∀ i ∈ s0 :: rest, localFind w.heap i k = none) →
      ∀ m, w.heap[rest.getLastD s0]? = some (.base m none) →
      ∃ w2 m2, getSettingString fuel w s0 k = .ok ("", w2) ∧
        (∀ j, j ≠ rest.getLastD s0 → w2.heap[j]? = w.heap[j]?) ∧
        w2.heap[rest.getLastD s0]? = some (.base m2 none) ∧
        m2.find k = some "" ∧ (∀ k2, k2 ≠ k → m2.find k2 = m.find k2)) := by
  refine ⟨getSettingString_found w k rest s0 fuel hc hf, ?_⟩
  intro hnone m hroot
  obtain ⟨f, rfl⟩ : ∃ f, fuel = rest.length + (f + 1) :=
    ⟨fuel - rest.length - 1, by simp at hf; omega⟩
  have habsent : ∀ i ∈ (s0 :: rest).dropLast, localFind w.heap i k = none :=
    fun i hi => hnone i (List.dropLast_subset _ hi)
  have hlast : localFind w.heap (rest.getLastD s0) k = none := by
    apply hnone
    rw [List.getLastD_eq_getLast?]
    cases rest with
    | nil => simp
    | cons j r =>
      have : (j :: r).getLast? = some ((j :: r).getLast (List.cons_ne_nil _ _)) :=
        List.getLast?_eq_getLast _ _
      rw [this]
      exact List.mem_cons_of_mem _ (List.getLast_mem _)
  have hk : m.find k = none := by
    unfold localFind at hlast
    rw [hroot] at hlast
    exact hlast
  rw [getSettingString_descend w k rest s0 (f + 1) hc habsent]
  refine ⟨logError (storeLocal w (rest.getLastD s0) m none k "") "Unregistered setting %s\n" [k],
    m.assign k "", ?_, ?_, ?_, SettingMap.find_assign_same m k "",
    fun k2 h2 => SettingMap.find_assign_other m k "" k2 h2⟩
  · unfold getSettingString
    rw [hroot]
    simp only [hk]
  · intro j hj
    show (w.heap.set _ _)[j]? = _
    exact heap_set_other _ _ _ _ hj
  · show (w.heap.set _ _)[_]? = _
    exact heap_set_self _ _ _ _ hroot

/-- Instance of C5 on the chain proxy 2 -> store 1 -> root 0: the key `a`, held by the
root, is found and nothing changes; the key `b`, held nowhere, is cached at the root
only. -/
theorem getSettingString_caches_at_root_only_witness :
    (∃ v, getSettingString 3 ⟨[.base [("a", "1")] none, .base [] (some 0),
        .messenger (some 1)], []⟩ 2 "a"
      = .ok (v, ⟨[.base [("a", "1")] none, .base [] (some 0), .messenger (some 1)], []⟩)) ∧
    (∃ w2 m2, getSettingString 3 ⟨[.base [("a", "1")] none, .base [] (some 0),
        .messenger (some 1)], []⟩ 2 "b" = .ok ("", w2) ∧
      (∀ j, j ≠ 0 → w2.heap[j]?
        = [Node.base [("a", "1")] none, .base [] (some 0), .messenger (some 1)][j]?) ∧
      w2.heap[0]? = some (.base m2 none) ∧
      m2.find "b" = some "" ∧
      (∀ k2, k2 ≠ "b" → m2.find k2 = SettingMap.find [("a", "1")] k2)) :=
  ⟨(getSettingString_caches_at_root_only
      ⟨[.base [("a", "1")] none, .base [] (some 0), .messenger (some 1)], []⟩ 2 [1, 0] "a" 3
      (by decide) (by decide)).1 ⟨0, by decide, by decide⟩,
    (getSettingString_caches_at_root_only
      ⟨[.base [("a", "1")] none, .base [] (some 0), .messenger (some 1)], []⟩ 2 [1, 0] "b" 3
      (by decide) (by decide)).2 (by decide) [("a", "1")] (by decide)⟩

/-- C6 (proxy transparency): for a `SettingsMessenger` `p` with delegate `d`, a read or a
write through `p` has the very outcome (returned string, resulting state) of the same
call on `d`, at the cost of one more unit of fuel; so a value written through `p` is
read back from `d`, and a value written to `d` is read back through `p`. -/
theorem SettingsMessenger_forwards (reg : String → Bool) (w : World) (p d : Nat)
    (k v : String) (f : Nat) (hp : w.heap[p]? = some (.messenger (some d))) :
    getSettingString (f + 1) w p k = getSettingString f w d k ∧
    setSetting reg (f + 1) w p k v = setSetting reg f w d k v ∧
    (∀ w2, setSetting reg (f + 1) w p k v = .ok w2 →
      getSettingString f w2 d k = .ok (v, w2)) ∧
    (∀ w2, setSetting reg f w d k v = .ok w2 →
      getSettingString (f + 1) w2 p k = .ok (v, w2)) := by
  have hs : setSetting reg (f + 1) w p k v = setSetting reg f w d k v := by
    simp [setSetting, hp]
  refine ⟨by simp [getSettingString, hp], hs, ?_, ?_⟩
  · intro w2 h
    rw [hs] at h
    exact setSetting_read_back reg k v f w w2 d h
  · intro w2 h
    rw [← hs] at h
    exact setSetting_read_back reg k v (f + 1) w w2 p h

/-- Instance of C6: the proxy at 1 forwards to the store at 0; a value written through
either is read back through the other. -/
theorem SettingsMessenger_forwards_witness :
    getSettingString 2 ⟨[.base [("a", "1")] none, .messenger (some 0)], []⟩ 1 "a"
      = getSettingString 1 ⟨[.base [("a", "1")] none, .messenger (some 0)], []⟩ 0 "a" ∧
    setSetting (fun _ => true) 2 ⟨[.base [("a", "1")] none, .messenger (some 0)], []⟩ 1 "a" "2"
      = setSetting (fun _ => true) 1 ⟨[.base [("a", "1")] none, .messenger (some 0)], []⟩ 0
          "a" "2" ∧
    getSettingString 1 ⟨[.base [("a", "2")] none, .messenger (some 0)], []⟩ 0 "a"
      = .ok ("2", ⟨[.base [("a", "2")] none, .messenger (some 0)], []⟩) ∧
    getSettingString 2 ⟨[.base [("a", "2")] none, .messenger (some 0)], []⟩ 1 "a"
      = .ok ("2", ⟨[.base [("a", "2")] none, .messenger (some 0)], []⟩) :=
  ⟨(SettingsMessenger_forwards (fun _ => true)
      ⟨[.base [("a", "1")] none, .messenger (some 0)], []⟩ 1 0 "a" "2" 1 (by decide)).1,
    (SettingsMessenger_forwards (fun _ => true)
      ⟨[.base [("a", "1")] none, .messenger (some 0)], []⟩ 1 0 "a" "2" 1 (by decide)).2.1,
    (SettingsMessenger_forwards (fun _ => true)
      ⟨[.base [("a", "1")] none, .messenger (some 0)], []⟩ 1 0 "a" "2" 1 (by decide)).2.2.1
      ⟨[.base [("a", "2")] none, .messenger (some 0)], []⟩ (by decide),
    (SettingsMessenger_forwards (fun _ => true)
      ⟨[.base [("a", "1")] none, .messenger (some 0)], []⟩ 1 0 "a" "2" 1 (by decide)).2.2.2
      ⟨[.base [("a", "2")] none, .messenger (some 0)], []⟩ (by decide)⟩

/-! ## The typed accessors -/

/-- C7 as stated fails: the resolved value `4294967296` has a nonzero leading integer, yet
`getSettingBoolean` does not return `true`: `atoi` is called on an integer that does not
fit in `int`, which the C standard leaves undefined (glibc returns `0`, hence `false`). -/
theorem getSettingBoolean_overflow_counterexample :
    leadingInteger "4294967296".toList = 4294967296 ∧
    getSettingString 1 ⟨[.base [("b", "4294967296")] none], []⟩ 0 "b"
      = .ok ("4294967296", ⟨[.base [("b", "4294967296")] none], []⟩) ∧
    getSettingBoolean 1 ⟨[.base [("b", "4294967296")] none], []⟩ 0 "b"
      = .error .undefinedBehaviour ∧
    getSettingBoolean 1 ⟨[.base [("b", "4294967296")] none], []⟩ 0 "b"
      ≠ .ok (true, ⟨[.base [("b", "4294967296")] none], []⟩) := by
  decide

/-- C7 amended (boolean parsing): for every resolved value `s` that is one of the words
`on`, `yes`, `true`, `True` or whose leading integer fits in a 32-bit `int`,
`getSettingBoolean` returns `true` exactly when `s` is one of the four words or its leading
integer (white space, optional sign, decimal digits) is nonzero, and leaves the state of the
lookup as it is.  It returns `true` for `on`, `yes`, `true`, `True`, `1`, `5` and `false`
for the empty string, `0`, `off`, `false`, `TRUE`, `On`, `Yes`. -/
theorem getSettingBoolean_spec (fuel : Nat) (w : World) (this : Nat) (key : String) :
    (∀ (s : String) (w1 : World), getSettingString fuel w this key = .ok (s, w1) →
      (s = "on" ∨ s = "yes" ∨ s = "true" ∨ s = "True" ∨
        (INT_MIN ≤ leadingInteger s.toList ∧ leadingInteger s.toList ≤ INT_MAX)) →
      getSettingBoolean fuel w this key
        = .ok (decide (s = "on" ∨ s = "yes" ∨ s = "true" ∨ s = "True" ∨
            leadingInteger s.toList ≠ 0), w1)) ∧
    (∀ s ∈ ["on", "yes", "true", "True", "1", "5"], ∀ w1,
      getSettingString fuel w this key = .ok (s, w1) →
      getSettingBoolean fuel w this key = .ok (true, w1)) ∧
    (∀ s ∈ ["", "0", "off", "false", "TRUE", "On", "Yes"], ∀ w1,
      getSettingString fuel w this key = .ok (s, w1) →
      getSettingBoolean fuel w this key = .ok (false, w1)) := by
  refine ⟨fun s w1 hres hfit => getSettingBoolean_of_resolved fuel w this key s w1 hres hfit,
    ?_, ?_⟩
  · intro s hs w1 hres
    simp only [List.mem_cons, List.mem_singleton, List.mem_nil_iff, or_false] at hs
    rcases hs with rfl | rfl | rfl | rfl | rfl | rfl <;>
      (rw [getSettingBoolean_of_resolved fuel w this key _ w1 hres (by decide)]
       congr 2)
  · intro s hs w1 hres
    simp only [List.mem_cons, List.mem_singleton, List.mem_nil_iff, or_false] at hs
    rcases hs with rfl | rfl | rfl | rfl | rfl | rfl | rfl <;>
      (rw [getSettingBoolean_of_resolved fuel w this key _ w1 hres (by decide)]
       congr 2)

/-- Instance of C7 amended: a store holding ` -12abc` under `b`. -/
theorem getSettingBoolean_spec_witness :
    getSettingBoolean 1 ⟨[.base [("b", " -12abc")] none], []⟩ 0 "b"
      = .ok (decide (" -12abc" = "on" ∨ " -12abc" = "yes" ∨ " -12abc" = "true" ∨
          " -12abc" = "True" ∨ leadingInteger " -12abc".toList ≠ 0),
        ⟨[.base [("b", " -12abc")] none], []⟩) :=
  (getSettingBoolean_spec 1 ⟨[.base [("b", " -12abc")] none], []⟩ 0 "b").1 " -12abc"
    ⟨[.base [("b", " -12abc")] none], []⟩ (by decide) (by decide)

/-- The curve of a text whose literals all convert: when the resolved value is the text
`[[a1,b1],...,[an,bn]]` (any `n`, also 0) of texts without comma and brackets that
`std::stod` converts to numbers, `getSettingAsFlowTempGraph` returns exactly the `n` points
in order of appearance and logs nothing; on `[50,abc]` it returns no point and logs
exactly one malformed-pair notice; on the empty string it returns no point.  Every
well-formed decimal literal `[-]d..d[.d..d][e[-]d..d]` for which `strtod` does not report
`ERANGE` is such a text, with the value it denotes.  A literal out of the range of
doubles is not: see `getSettingAsFlowTempGraph_literal_out_of_range`. -/
theorem getSettingAsFlowTempGraph_wellformed (fuel : Nat) (w : World) (this : Nat)
    (key : String) (w1 : World) :
    (∀ l : DecimalLiteral, l.wellFormed → l.scaled.2 = false →
      NumericLiteral.valid ⟨l.text, l.scaled.1⟩) ∧
    (∀ lits : List (NumericLiteral × NumericLiteral),
      (∀ l ∈ lits, l.1.valid ∧ l.2.valid) →
      getSettingString fuel w this key
        = .ok (String.mk (renderGraph (lits.map fun l => (l.1.text, l.2.text))), w1) →
      getSettingAsFlowTempGraph fuel w this key
        = .ok (⟨lits.map fun l => (l.1.value, l.2.value)⟩, w1)) ∧
    (getSettingString fuel w this key = .ok ("[50,abc]", w1) →
      getSettingAsFlowTempGraph fuel w this key
        = .ok (⟨[]⟩, { w1 with log := w1.log ++
            [⟨"Couldn't read 2D graph element [%s,%s] in setting '%s'. Ignored.\n",
              ["50", "abc", key]⟩] })) ∧
    (getSettingString fuel w this key = .ok ("", w1) →
      getSettingAsFlowTempGraph fuel w this key = .ok (⟨[]⟩, w1)) := by
  refine ⟨fun l hw hr => DecimalLiteral.valid_of_wellFormed l hw hr, ?_, ?_, ?_⟩
  · intro lits hv hres
    have hne : renderGraph (lits.map fun l => (l.1.text, l.2.text)) ≠ [] := by
      simp [renderGraph]
    have hsep : ∀ t ∈ lits.map (fun l => (l.1.text, l.2.text)),
        (∀ c ∈ t.1, c ≠ ',' ∧ c ≠ '[') ∧ (∀ c ∈ t.2, c ≠ ',' ∧ c ≠ ']') := by
      intro t ht
      obtain ⟨l, hl, rfl⟩ := List.mem_map.mp ht
      have h := hv l hl
      exact ⟨fun c hc => ⟨(h.1.1 c hc).1, (h.1.1 c hc).2.1⟩,
        fun c hc => ⟨(h.2.1 c hc).1, (h.2.1 c hc).2.2⟩⟩
    unfold getSettingAsFlowTempGraph
    rw [hres]
    simp only [String.toList, hne, if_false]
    rw [regexMatches_renderGraph _ hsep, flowTempLoop_valid key lits hv]
    simp
  · intro hres
    unfold getSettingAsFlowTempGraph
    rw [hres]
    have hm : regexMatches "[50,abc]".toList.length "[50,abc]".toList
        = [(['5', '0'], ['a', 'b', 'c'])] := by decide
    have h1 : stod ['5', '0'] = .ok (.ofNat 50) := by decide
    have h2 : stod ['a', 'b', 'c'] = .invalid_argument := by decide
    have hne : "[50,abc]".toList ≠ [] := by decide
    simp only [hne, if_false, hm, flowTempLoop, h1, h2, logError]
    rfl
  · intro hres
    unfold getSettingAsFlowTempGraph
    rw [hres]
    rfl

/-- The curve `[[50,200],[100,210]]` of the spec is read as its two points. -/
theorem getSettingAsFlowTempGraph_wellformed_witness :
    getSettingAsFlowTempGraph 1 ⟨[.base [("g", "[[50,200],[100,210]]")] none], []⟩ 0 "g"
      = .ok (⟨[(.ofNat 50, .ofNat 200), (.ofNat 100, .ofNat 210)]⟩,
          ⟨[.base [("g", "[[50,200],[100,210]]")] none], []⟩) :=
  (getSettingAsFlowTempGraph_wellformed 1
    ⟨[.base [("g", "[[50,200],[100,210]]")] none], []⟩ 0 "g"
    ⟨[.base [("g", "[[50,200],[100,210]]")] none], []⟩).2.1
    [(⟨['5', '0'], .ofNat 50⟩, ⟨['2', '0', '0'], .ofNat 200⟩),
      (⟨['1', '0', '0'], .ofNat 100⟩, ⟨['2', '1', '0'], .ofNat 210⟩)]
    (by decide) (by decide)

/-- C8 fails on the code: `[[50,200],[1e999,210]]` is a text `[[a1,b1],[a2,b2]]` of
numeric literals (`1e999` is a well-formed decimal literal), but
`getSettingAsFlowTempGraph` returns no curve for it: `std::stod` throws
`std::out_of_range` on `1e999`, which the loop does not catch, and the call ends with that
exception.  The rest of the claim holds: `[[50,200],[100,210]]` gives its two points,
`[50,abc]` gives no point and one notice, the empty string gives no point. -/
theorem getSettingAsFlowTempGraph_literal_out_of_range :
    String.mk (renderGraph [(['5', '0'], ['2', '0', '0']),
        (DecimalLiteral.text ⟨false, ['1'], none, some (false, ['9', '9', '9'])⟩,
          ['2', '1', '0'])])
      = "[[50,200],[1e999,210]]" ∧
    DecimalLiteral.wellFormed ⟨false, ['1'], none, some (false, ['9', '9', '9'])⟩ ∧
    getSettingAsFlowTempGraph 1 ⟨[.base [("g", "[[50,200],[1e999,210]]")] none], []⟩ 0 "g"
      = .error (.exception "std::out_of_range") ∧
    getSettingAsFlowTempGraph 1 ⟨[.base [("g", "[[50,200],[100,210]]")] none], []⟩ 0 "g"
      = .ok (⟨[(.ofNat 50, .ofNat 200), (.ofNat 100, .ofNat 210)]⟩,
          ⟨[.base [("g", "[[50,200],[100,210]]")] none], []⟩) ∧
    getSettingAsFlowTempGraph 1 ⟨[.base [("g", "[50,abc]")] none], []⟩ 0 "g"
      = .ok (⟨[]⟩, ⟨[.base [("g", "[50,abc]")] none],
          [tokenNotice "g" (['5', '0'], ['a', 'b', 'c'])]⟩) ∧
    getSettingAsFlowTempGraph 1 ⟨[.base [("g", "")] none], []⟩ 0 "g"
      = .ok (⟨[]⟩, ⟨[.base [("g", "")] none], []⟩) := by
  refine ⟨by decide, ?_, by decide, by decide, by decide, by decide⟩
  refine ⟨by decide, by decide, ?_, ?_⟩
  · intro f h
    cases h
  · intro neg ds h
    cases h
    exact ⟨by decide, by decide⟩

/-- C9 fails on the code: on `[[1e999,1],[100,210]]` the first token does not convert
(`std::stod` throws `std::out_of_range`, which the loop does not catch), and the call ends
with that exception instead of logging the token and returning the point of the second
token, which on its own is read as `(100,210)`. -/
theorem getSettingAsFlowTempGraph_range_error_aborts :
    stod "1e999".toList = .out_of_range ∧
    getSettingAsFlowTempGraph 1 ⟨[.base [("g", "[[1e999,1],[100,210]]")] none], []⟩ 0 "g"
      = .error (.exception "std::out_of_range") ∧
    getSettingAsFlowTempGraph 1 ⟨[.base [("g", "[[100,210]]")] none], []⟩ 0 "g"
      = .ok (⟨[(.ofNat 100, .ofNat 210)]⟩, ⟨[.base [("g", "[[100,210]]")] none], []⟩) := by
  decide

/-- C10 fails on the code: for the resolved value `[1e999,1]` the exception
`std::out_of_range` of `std::stod` leaves `getSettingAsFlowTempGraph`; the handler
catches `std::invalid_argument` only. -/
theorem getSettingAsFlowTempGraph_throws_out_of_range :
    getSettingAsFlowTempGraph 1 ⟨[.base [("g", "[1e999,1]")] none], []⟩ 0 "g"
      = .error (.exception "std::out_of_range") := by
  decide

/-! ## Enumerated categories and integers -/

/-- C11 (g-code flavor parsing): for every resolved string `s`, `getSettingAsGCodeFlavor`
returns `GRIFFIN` iff `s` is `Griffin`, `ULTIGCODE` iff `UltiGCode`, `MAKERBOT` iff
`Makerbot`, `BFB` iff `BFB`, `MACH3` iff `MACH3`, `REPRAP_VOLUMATRIC` iff
`RepRap (Volumatric)`, and `REPRAP` iff `s` is none of these six; the match is exact, so
`griffin` and the empty string give `REPRAP`. -/
theorem getSettingAsGCodeFlavor_spec (fuel : Nat) (w : World) (this : Nat) (key : String)
    (s : String) (w1 : World) (hres : getSettingString fuel w this key = .ok (s, w1)) :
    ∃ f, getSettingAsGCodeFlavor fuel w this key = .ok (f, w1) ∧
      (f = .GRIFFIN ↔ s = "Griffin") ∧ (f = .ULTIGCODE ↔ s = "UltiGCode") ∧
      (f = .MAKERBOT ↔ s = "Makerbot") ∧ (f = .BFB ↔ s = "BFB") ∧
      (f = .MACH3 ↔ s = "MACH3") ∧ (f = .REPRAP_VOLUMATRIC ↔ s = "RepRap (Volumatric)") ∧
      (f = .REPRAP ↔ s ∉ ["Griffin", "UltiGCode", "Makerbot", "BFB", "MACH3",
        "RepRap (Volumatric)"]) ∧
      (s = "griffin" ∨ s = "" → f = .REPRAP) := by
  unfold getSettingAsGCodeFlavor
  rw [hres]
  by_cases h1 : s = "Griffin"
  · subst h1; exact ⟨.GRIFFIN, rfl, by decide⟩
  by_cases h2 : s = "UltiGCode"
  · subst h2; exact ⟨.ULTIGCODE, rfl, by decide⟩
  by_cases h3 : s = "Makerbot"
  · subst h3; exact ⟨.MAKERBOT, rfl, by decide⟩
  by_cases h4 : s = "BFB"
  · subst h4; exact ⟨.BFB, rfl, by decide⟩
  by_cases h5 : s = "MACH3"
  · subst h5; exact ⟨.MACH3, rfl, by decide⟩
  by_cases h6 : s = "RepRap (Volumatric)"
  · subst h6; exact ⟨.REPRAP_VOLUMATRIC, rfl, by decide⟩
  refine ⟨.REPRAP, by simp only [h1, h2, h3, h4, h5, h6, if_false], ?_⟩
  simp [h1, h2, h3, h4, h5, h6]

/-- Instance of C11: a store holding `Griffin`. -/
theorem getSettingAsGCodeFlavor_spec_witness :
    ∃ f, getSettingAsGCodeFlavor 1 ⟨[.base [("f", "Griffin")] none], []⟩ 0 "f"
        = .ok (f, ⟨[.base [("f", "Griffin")] none], []⟩) ∧
      (f = .GRIFFIN ↔ "Griffin" = "Griffin") ∧ (f = .ULTIGCODE ↔ "Griffin" = "UltiGCode") ∧
      (f = .MAKERBOT ↔ "Griffin" = "Makerbot") ∧ (f = .BFB ↔ "Griffin" = "BFB") ∧
      (f = .MACH3 ↔ "Griffin" = "MACH3") ∧
      (f = .REPRAP_VOLUMATRIC ↔ "Griffin" = "RepRap (Volumatric)") ∧
      (f = .REPRAP ↔ "Griffin" ∉ ["Griffin", "UltiGCode", "Makerbot", "BFB", "MACH3",
        "RepRap (Volumatric)"]) ∧
      ("Griffin" = "griffin" ∨ "Griffin" = "" → f = .REPRAP) :=
  getSettingAsGCodeFlavor_spec 1 ⟨[.base [("f", "Griffin")] none], []⟩ 0 "f" "Griffin"
    ⟨[.base [("f", "Griffin")] none], []⟩ (by decide)

/-- C12 (enumerated defaults): for every resolved string `s`, each accessor returns the
category of the literal `s` is, and its default when `s` is none of the literals that
select another category: `getSettingAsFillMethod` gives `NONE` (`lines`, `grid`, `cubic`,
`tetrahedral`, `triangles`, `concentric`, `zigzag` give `LINES`, `GRID`, `CUBIC`,
`TETRAHEDRAL`, `TRIANGLES`, `CONCENTRIC`, `ZIG_ZAG`), `getSettingAsPlatformAdhesion` gives
`SKIRT` (only `brim` and `raft` give `BRIM` and `RAFT`), `getSettingAsSupportType` gives
`NONE` (`everywhere` gives `EVERYWHERE`, `buildplate` gives `PLATFORM_ONLY`),
`getSettingAsZSeamType` gives `SHORTEST` (`random`, `back` give `RANDOM`, `BACK`),
`getSettingAsSurfaceMode` gives `NORMAL` (`surface`, `both` give `SURFACE`, `BOTH`),
`getSettingAsCombingMode` gives `ALL` (`off`, `noskin` give `OFF`, `NO_SKIN`) and
`getSettingAsSupportDistPriority` gives `XY_OVERRIDES_Z` (`z_overrides_xy` gives
`Z_OVERRIDES_XY`); the literals `shortest`, `normal`, `all` and `xy_overrides_z` name the
default itself. -/
theorem enumerated_accessors_spec (fuel : Nat) (w : World) (this : Nat) (key : String)
    (s : String) (w1 : World) (hres : getSettingString fuel w this key = .ok (s, w1)) :
    (∃ r, getSettingAsFillMethod fuel w this key = .ok (r, w1) ∧
        (r = .LINES ↔ s = "lines") ∧
        (r = .GRID ↔ s = "grid") ∧
        (r = .CUBIC ↔ s = "cubic") ∧
        (r = .TETRAHEDRAL ↔ s = "tetrahedral") ∧
        (r = .TRIANGLES ↔ s = "triangles") ∧
        (r = .CONCENTRIC ↔ s = "concentric") ∧
        (r = .ZIG_ZAG ↔ s = "zigzag") ∧
        (r = .NONE ↔ s ∉ ["lines", "grid", "cubic", "tetrahedral", "triangles", "concentric", "zigzag"])) ∧
    (∃ r, getSettingAsPlatformAdhesion fuel w this key = .ok (r, w1) ∧
        (r = .BRIM ↔ s = "brim") ∧
        (r = .RAFT ↔ s = "raft") ∧
        (r = .SKIRT ↔ s ∉ ["brim", "raft"])) ∧
    (∃ r, getSettingAsSupportType fuel w this key = .ok (r, w1) ∧
        (r = .EVERYWHERE ↔ s = "everywhere") ∧
        (r = .PLATFORM_ONLY ↔ s = "buildplate") ∧
        (r = .NONE ↔ s ∉ ["everywhere", "buildplate"])) ∧
    (∃ r, getSettingAsZSeamType fuel w this key = .ok (r, w1) ∧
        (r = .RANDOM ↔ s = "random") ∧
        (r = .BACK ↔ s = "back") ∧
        (r = .SHORTEST ↔ s ∉ ["random", "back"])) ∧
    (∃ r, getSettingAsSurfaceMode fuel w this key = .ok (r, w1) ∧
        (r = .SURFACE ↔ s = "surface") ∧
        (r = .BOTH ↔ s = "both") ∧
        (r = .NORMAL ↔ s ∉ ["surface", "both"])) ∧
    (∃ r, getSettingAsCombingMode fuel w this key = .ok (r, w1) ∧
        (r = .OFF ↔ s = "off") ∧
        (r = .NO_SKIN ↔ s = "noskin") ∧
        (r = .ALL ↔ s ∉ ["off", "noskin"])) ∧
    (∃ r, getSettingAsSupportDistPriority fuel w this key = .ok (r, w1) ∧
        (r = .Z_OVERRIDES_XY ↔ s = "z_overrides_xy") ∧
        (r = .XY_OVERRIDES_Z ↔ s ∉ ["z_overrides_xy"])) := by
  refine ⟨?_, ?_, ?_, ?_, ?_, ?_, ?_⟩
  · unfold getSettingAsFillMethod
    rw [hres]
    by_cases h1 : s = "lines"
    · subst h1; exact ⟨.LINES, rfl, by decide⟩
    by_cases h2 : s = "grid"
    · subst h2; exact ⟨.GRID, rfl, by decide⟩
    by_cases h3 : s = "cubic"
    · subst h3; exact ⟨.CUBIC, rfl, by decide⟩
    by_cases h4 : s = "tetrahedral"
    · subst h4; exact ⟨.TETRAHEDRAL, rfl, by decide⟩
    by_cases h5 : s = "triangles"
    · subst h5; exact ⟨.TRIANGLES, rfl, by decide⟩
    by_cases h6 : s = "concentric"
    · subst h6; exact ⟨.CONCENTRIC, rfl, by decide⟩
    by_cases h7 : s = "zigzag"
    · subst h7; exact ⟨.ZIG_ZAG, rfl, by decide⟩
    refine ⟨.NONE, by simp only [h1, h2, h3, h4, h5, h6, h7, if_false], ?_⟩
    simp [h1, h2, h3, h4, h5, h6, h7]
  · unfold getSettingAsPlatformAdhesion
    rw [hres]
    by_cases h1 : s = "brim"
    · subst h1; exact ⟨.BRIM, rfl, by decide⟩
    by_cases h2 : s = "raft"
    · subst h2; exact ⟨.RAFT, rfl, by decide⟩
    refine ⟨.SKIRT, by simp only [h1, h2, if_false], ?_⟩
    simp [h1, h2]
  · unfold getSettingAsSupportType
    rw [hres]
    by_cases h1 : s = "everywhere"
    · subst h1; exact ⟨.EVERYWHERE, rfl, by decide⟩
    by_cases h2 : s = "buildplate"
    · subst h2; exact ⟨.PLATFORM_ONLY, rfl, by decide⟩
    refine ⟨.NONE, by simp only [h1, h2, if_false], ?_⟩
    simp [h1, h2]
  · unfold getSettingAsZSeamType
    rw [hres]
    by_cases h1 : s = "random"
    · subst h1; exact ⟨.RANDOM, rfl, by decide⟩
    by_cases h2 : s = "shortest"
    · subst h2; exact ⟨.SHORTEST, rfl, by decide⟩
    by_cases h3 : s = "back"
    · subst h3; exact ⟨.BACK, rfl, by decide⟩
    refine ⟨.SHORTEST, by simp only [h1, h2, h3, if_false], ?_⟩
    simp [h1, h2, h3]
  · unfold getSettingAsSurfaceMode
    rw [hres]
    by_cases h1 : s = "normal"
    · subst h1; exact ⟨.NORMAL, rfl, by decide⟩
    by_cases h2 : s = "surface"
    · subst h2; exact ⟨.SURFACE, rfl, by decide⟩
    by_cases h3 : s = "both"
    · subst h3; exact ⟨.BOTH, rfl, by decide⟩
    refine ⟨.NORMAL, by simp only [h1, h2, h3, if_false], ?_⟩
    simp [h1, h2, h3]
  · unfold getSettingAsCombingMode
    rw [hres]
    by_cases h1 : s = "off"
    · subst h1; exact ⟨.OFF, rfl, by decide⟩
    by_cases h2 : s = "all"
    · subst h2; exact ⟨.ALL, rfl, by decide⟩
    by_cases h3 : s = "noskin"
    · subst h3; exact ⟨.NO_SKIN, rfl, by decide⟩
    refine ⟨.ALL, by simp only [h1, h2, h3, if_false], ?_⟩
    simp [h1, h2, h3]
  · unfold getSettingAsSupportDistPriority
    rw [hres]
    by_cases h1 : s = "xy_overrides_z"
    · subst h1; exact ⟨.XY_OVERRIDES_Z, rfl, by decide⟩
    by_cases h2 : s = "z_overrides_xy"
    · subst h2; exact ⟨.Z_OVERRIDES_XY, rfl, by decide⟩
    refine ⟨.XY_OVERRIDES_Z, by simp only [h1, h2, if_false], ?_⟩
    simp [h1, h2]

/-- Instance of C12: a store holding `buildplate`, read as adhesion (the default `SKIRT`)
and as support type (`PLATFORM_ONLY`). -/
theorem enumerated_accessors_spec_witness :
    (∃ r, getSettingAsPlatformAdhesion 1 ⟨[.base [("e", "buildplate")] none], []⟩ 0 "e"
        = .ok (r, ⟨[.base [("e", "buildplate")] none], []⟩) ∧
      (r = .BRIM ↔ "buildplate" = "brim") ∧ (r = .RAFT ↔ "buildplate" = "raft") ∧
      (r = .SKIRT ↔ "buildplate" ∉ ["brim", "raft"])) ∧
    (∃ r, getSettingAsSupportType 1 ⟨[.base [("e", "buildplate")] none], []⟩ 0 "e"
        = .ok (r, ⟨[.base [("e", "buildplate")] none], []⟩) ∧
      (r = .EVERYWHERE ↔ "buildplate" = "everywhere") ∧
      (r = .PLATFORM_ONLY ↔ "buildplate" = "buildplate") ∧
      (r = .NONE ↔ "buildplate" ∉ ["everywhere", "buildplate"])) :=
  ⟨(enumerated_accessors_spec 1 ⟨[.base [("e", "buildplate")] none], []⟩ 0 "e" "buildplate"
      ⟨[.base [("e", "buildplate")] none], []⟩ (by decide)).2.1,
    (enumerated_accessors_spec 1 ⟨[.base [("e", "buildplate")] none], []⟩ 0 "e" "buildplate"
      ⟨[.base [("e", "buildplate")] none], []⟩ (by decide)).2.2.1⟩

/-- C14 (integer accessors): for every resolved string `s` whose leading integer fits in
a 32-bit `int`, `getSettingAsIndex` and `getSettingAsCount` return the same value, the
leading integer of `s`, and leave the state of the lookup as it is.  That integer is the one
denoted by the longest prefix made of white space, an optional sign and decimal digits:
whenever `s` is white space `ws`, a sign, a run of digits and a rest that does not start
with a digit, it is the signed decimal value of the digits, and `0` when the run is
empty; the rest is ignored.  So the empty string, `abc` and `true` give `0` and `12abc`
gives `12`. -/
theorem getSettingAsIndex_getSettingAsCount_spec (fuel : Nat) (w : World) (this : Nat)
    (key : String) (s : String) (w1 : World)
    (hres : getSettingString fuel w this key = .ok (s, w1))
    (hfit : INT_MIN ≤ leadingInteger s.toList ∧ leadingInteger s.toList ≤ INT_MAX) :
    getSettingAsIndex fuel w this key = .ok (leadingInteger s.toList, w1) ∧
    getSettingAsCount fuel w this key = .ok (leadingInteger s.toList, w1) ∧
    (∀ (ws : List Char) (sign : Option Bool) (digits rest : List Char),
      s.toList = ws ++ (optionalSign sign ++ (digits ++ rest)) →
      (∀ c ∈ ws, isspace c = true) → (∀ c ∈ digits, isdigit c = true) →
      (rest = [] ∨ ∃ x r, rest = x :: r ∧ isdigit x = false) →
      (sign = none → digits = [] →
        rest = [] ∨ ∃ x r, rest = x :: r ∧ isspace x = false ∧ x ≠ '-' ∧ x ≠ '+') →
      leadingInteger s.toList
        = if sign = some true then -(digitsValue 10 digits : Int)
          else (digitsValue 10 digits : Int)) ∧
    (s = "" ∨ s = "abc" ∨ s = "true" → leadingInteger s.toList = 0) ∧
    (s = "12abc" → leadingInteger s.toList = 12) := by
  refine ⟨?_, ?_, ?_, ?_, ?_⟩
  · unfold getSettingAsIndex
    rw [hres]
    simp only [atoi, hfit, and_self, if_true]
  · unfold getSettingAsCount
    rw [hres]
    simp only [atoi, hfit, and_self, if_true]
  · intro ws sign digits rest hs hws hd hrest hbare
    rw [hs]
    exact leadingInteger_decomposed ws sign digits rest hws hd hrest hbare
  · intro h
    rcases h with rfl | rfl | rfl <;> decide
  · intro h
    subst h
    decide

/-- Instance of C14: a store holding ` -12abc`. -/
theorem getSettingAsIndex_getSettingAsCount_spec_witness :
    getSettingAsIndex 1 ⟨[.base [("n", " -12abc")] none], []⟩ 0 "n"
      = .ok (-12, ⟨[.base [("n", " -12abc")] none], []⟩) ∧
    getSettingAsCount 1 ⟨[.base [("n", " -12abc")] none], []⟩ 0 "n"
      = .ok (-12, ⟨[.base [("n", " -12abc")] none], []⟩) ∧
    leadingInteger " -12abc".toList = -(digitsValue 10 ['1', '2'] : Int) :=
  ⟨(getSettingAsIndex_getSettingAsCount_spec 1 ⟨[.base [("n", " -12abc")] none], []⟩ 0 "n"
      " -12abc" ⟨[.base [("n", " -12abc")] none], []⟩ (by decide) (by decide)).1,
    (getSettingAsIndex_getSettingAsCount_spec 1 ⟨[.base [("n", " -12abc")] none], []⟩ 0 "n"
      " -12abc" ⟨[.base [("n", " -12abc")] none], []⟩ (by decide) (by decide)).2.1,
    (getSettingAsIndex_getSettingAsCount_spec 1 ⟨[.base [("n", " -12abc")] none], []⟩ 0 "n"
      " -12abc" ⟨[.base [("n", " -12abc")] none], []⟩ (by decide) (by decide)).2.2.1
      [' '] (some true) ['1', '2'] ['a', 'b', 'c'] (by decide) (by decide) (by decide)
      (Or.inr ⟨'a', ['b', 'c'], rfl, by decide⟩) (by intro h; cases h)⟩

/-- C17 as stated fails: the name `toString` gives for `MACH3` is `Mach3`, which
`getSettingAsGCodeFlavor` does not recognise (it accepts `MACH3`), so a store holding
that name is read as `REPRAP`; likewise `RepRap(Volumetric)` for `REPRAP_VOLUMATRIC`. -/
theorem toString_roundtrip_counterexample :
    cura.toString .MACH3 = "Mach3" ∧
    getSettingAsGCodeFlavor 1 ⟨[.base [("f", cura.toString .MACH3)] none], []⟩ 0 "f"
      = .ok (.REPRAP, ⟨[.base [("f", cura.toString .MACH3)] none], []⟩) ∧
    cura.toString .REPRAP_VOLUMATRIC = "RepRap(Volumetric)" ∧
    getSettingAsGCodeFlavor 1
        ⟨[.base [("f", cura.toString .REPRAP_VOLUMATRIC)] none], []⟩ 0 "f"
      = .ok (.REPRAP, ⟨[.base [("f", cura.toString .REPRAP_VOLUMATRIC)] none], []⟩) := by
  decide

/-- C17 amended (flavor name round trip): storing `toString(f)` under a key of a store
and reading the key with `getSettingAsGCodeFlavor` returns `f` for the five flavors `BFB`,
`MAKERBOT`, `ULTIGCODE`, `GRIFFIN` and `REPRAP`, and returns `REPRAP` for `MACH3` and
`REPRAP_VOLUMATRIC`, whose names `Mach3` and `RepRap(Volumetric)` are not among the
literals the parser recognises. -/
theorem toString_roundtrip (reg : String → Bool) (w : World) (i : Nat) (m : SettingMap)
    (par : Option Nat) (key : String) (f : EGCodeFlavor) (g : Nat)
    (hn : w.heap[i]? = some (.base m par)) :
    ∃ w1, setSetting reg (g + 1) w i key (cura.toString f) = .ok w1 ∧
      getSettingAsGCodeFlavor (g + 1) w1 i key
        = .ok (if f = .MACH3 ∨ f = .REPRAP_VOLUMATRIC then .REPRAP else f, w1) := by
  obtain ⟨w1, h1⟩ := setSetting_base_ok reg w i m par key (cura.toString f) g hn
  have h2 := setSetting_read_back reg key (cura.toString f) (g + 1) w w1 i h1
  refine ⟨w1, h1, ?_⟩
  unfold getSettingAsGCodeFlavor
  rw [h2]
  cases f <;> rfl

/-- Instance of C17 amended: the flavor `GRIFFIN` written to a root store. -/
theorem toString_roundtrip_witness :
    ∃ w1, setSetting (fun _ => true) 1 ⟨[.base [] none], []⟩ 0 "f" (cura.toString .GRIFFIN)
        = .ok w1 ∧
      getSettingAsGCodeFlavor 1 w1 0 "f"
        = .ok (if EGCodeFlavor.GRIFFIN = .MACH3 ∨ EGCodeFlavor.GRIFFIN = .REPRAP_VOLUMATRIC
            then .REPRAP else .GRIFFIN, w1) :=
  toString_roundtrip (fun _ => true) ⟨[.base [] none], []⟩ 0 [] none "f" .GRIFFIN 0 (by decide)

/-! ## Numeric accessors -/

/-- C13 (speed clamp): for every resolved string `s`, `getSettingInMillimetersPerSecond`
returns `std::max(1.0, p)` where `p = atof(s)` is the leading floating-point number of
`s` (`0.0` when `s` has none), and leaves the state of the lookup as it is.  The result is
at least `1.0`, compares equal to `p` whenever `p >= 1.0`, and is `1.0` whenever `p < 1.0`
or `s` has no leading number; `0.5` gives `1.0`, `50` gives `50.0`, the empty string and
`abc` give `1.0`. -/
theorem getSettingInMillimetersPerSecond_spec (fuel : Nat) (w : World) (this : Nat)
    (key : String) (s : String) (w1 : World)
    (hres : getSettingString fuel w this key = .ok (s, w1)) :
    ∃ r, getSettingInMillimetersPerSecond fuel w this key = .ok (r, w1) ∧
      r = Double.max Double.one (atof s) ∧
      Double.one.le r = true ∧
      (Double.one.le (atof s) = true → r.eq (atof s) = true) ∧
      ((atof s).lt Double.one = true → r = Double.one) ∧
      (strtod s.toList = none → r = Double.one) ∧
      (s = "0.5" → r = Double.one) ∧
      (s = "50" → r = .finite false 50 1) ∧
      (s = "" ∨ s = "abc" → r = Double.one) := by
  refine ⟨Double.max Double.one (atof s), ?_, rfl, ?_, ?_, ?_, ?_, ?_, ?_, ?_⟩
  · unfold getSettingInMillimetersPerSecond
    rw [hres]
  · exact Double.le_max Double.one (atof s) (by decide)
  · exact Double.max_eq_of_le Double.one (atof s)
  · exact Double.max_eq_left_of_lt Double.one (atof s)
  · intro h
    rw [atof_of_no_conversion s h]
    decide
  · intro h; subst h; decide
  · intro h; subst h; decide
  · intro h
    rcases h with rfl | rfl <;> decide

/-- Instance of C13: a store holding `0.5`. -/
theorem getSettingInMillimetersPerSecond_spec_witness :
    ∃ r, getSettingInMillimetersPerSecond 1 ⟨[.base [("v", "0.5")] none], []⟩ 0 "v"
        = .ok (r, ⟨[.base [("v", "0.5")] none], []⟩) ∧
      r = Double.max Double.one (atof "0.5") ∧
      Double.one.le r = true ∧
      (Double.one.le (atof "0.5") = true → r.eq (atof "0.5") = true) ∧
      ((atof "0.5").lt Double.one = true → r = Double.one) ∧
      (strtod "0.5".toList = none → r = Double.one) ∧
      ("0.5" = "0.5" → r = Double.one) ∧
      ("0.5" = "50" → r = .finite false 50 1) ∧
      ("0.5" = "" ∨ "0.5" = "abc" → r = Double.one) :=
  getSettingInMillimetersPerSecond_spec 1 ⟨[.base [("v", "0.5")] none], []⟩ 0 "v" "0.5"
    ⟨[.base [("v", "0.5")] none], []⟩ (by decide)

/-- C15 (non-negative clamps): for every resolved string `s`,
`getSettingInCubicMillimeters`, `getSettingInPercentage` and `getSettingInSeconds` each
return `std::max(0.0, p)` where `p = atof(s)` is the leading floating-point number of `s`
(`0.0` when `s` has none), and leave the state of the lookup as it is.  The result is at
least `0.0` and never below it, compares equal to `p` whenever `p >= 0`, and is `0.0` for
negative `p` and for a text without a leading number; `-3` gives `0.0`. -/
theorem nonnegative_clamps_spec (fuel : Nat) (w : World) (this : Nat)
    (key : String) (s : String) (w1 : World)
    (hres : getSettingString fuel w this key = .ok (s, w1)) :
    ∃ r, getSettingInCubicMillimeters fuel w this key = .ok (r, w1) ∧
      getSettingInPercentage fuel w this key = .ok (r, w1) ∧
      getSettingInSeconds fuel w this key = .ok (r, w1) ∧
      r = Double.max Double.zero (atof s) ∧
      Double.zero.le r = true ∧
      r.lt Double.zero = false ∧
      (Double.zero.le (atof s) = true → r.eq (atof s) = true) ∧
      ((atof s).lt Double.zero = true → r = Double.zero) ∧
      (strtod s.toList = none → r = Double.zero) ∧
      (s = "-3" → r = Double.zero) := by
  have hle := Double.le_max Double.zero (atof s) (by decide)
  refine ⟨Double.max Double.zero (atof s), ?_, ?_, ?_, rfl, hle, ?_, ?_, ?_, ?_, ?_⟩
  · unfold getSettingInCubicMillimeters
    rw [hres]
  · unfold getSettingInPercentage
    rw [hres]
  · unfold getSettingInSeconds
    rw [hres]
  · exact Double.max_not_lt Double.zero (atof s) (by decide)
  · exact Double.max_eq_of_le Double.zero (atof s)
  · exact Double.max_eq_left_of_lt Double.zero (atof s)
  · intro h
    rw [atof_of_no_conversion s h]
    decide
  · intro h; subst h; decide

/-- Instance of C15: a store holding `-3`. -/
theorem nonnegative_clamps_spec_witness :
    getSettingInCubicMillimeters 1 ⟨[.base [("v", "-3")] none], []⟩ 0 "v"
      = .ok (Double.zero, ⟨[.base [("v", "-3")] none], []⟩) ∧
    getSettingInPercentage 1 ⟨[.base [("v", "2.5")] none], []⟩ 0 "v"
      = .ok (.finite false 5 2, ⟨[.base [("v", "2.5")] none], []⟩) :=
  ⟨by
    obtain ⟨r, h1, _, _, _, _, _, _, _, _, h10⟩ := nonnegative_clamps_spec 1
      ⟨[.base [("v", "-3")] none], []⟩ 0 "v" "-3" ⟨[.base [("v", "-3")] none], []⟩ (by decide)
    rw [h1, h10 rfl],
   by
    obtain ⟨r, _, h2, _, h4, _⟩ := nonnegative_clamps_spec 1
      ⟨[.base [("v", "2.5")] none], []⟩ 0 "v" "2.5" ⟨[.base [("v", "2.5")] none], []⟩
      (by decide)
    rw [h2, h4]
    decide⟩

/-- C16 as stated fails: for the resolved value `0.0005`, `getSettingInMillimeters` returns
`0.0005`, whose product with `1000.0` is `0.5`, and `getSettingInMicrons` returns `0`,
which is not equal to that product: the conversion to `int` discards the fraction. -/
theorem getSettingInMicrons_truncates_counterexample :
    getSettingInMillimeters 1 ⟨[.base [("d", "0.0005")] none], []⟩ 0 "d"
      = .ok (atof "0.0005", ⟨[.base [("d", "0.0005")] none], []⟩) ∧
    (atof "0.0005").mul Double.thousand = .finite false 1 2 ∧
    getSettingInMicrons 1 ⟨[.base [("d", "0.0005")] none], []⟩ 0 "d"
      = .ok (0, ⟨[.base [("d", "0.0005")] none], []⟩) ∧
    (Double.finite false 0 1).eq (.finite false 1 2) = false := by
  decide

/-- C16 amended (micron conversion): whenever `getSettingInMillimeters(key)` returns `mm`
and the double product `mm * 1000.0` is a finite number `n / d` (with its sign) whose
integer part fits in a 32-bit `int`, `getSettingInMicrons(key)` returns that integer part,
the product with its fraction discarded, and leaves the same state; it compares equal to
the product exactly when the product is an integer.  So `0.0005` gives `0`, `-1.5` gives
`-1500`, and `1.005`, whose product is the double just below `1005`, gives `1004`. -/
theorem getSettingInMicrons_spec (fuel : Nat) (w : World) (this : Nat) (key : String)
    (mm : Double) (w1 : World) (negative : Bool) (n d : Nat)
    (hmm : getSettingInMillimeters fuel w this key = .ok (mm, w1))
    (hprod : mm.mul Double.thousand = .finite negative n d)
    (hfit : INT_MIN ≤ signedNum negative (n / d) ∧ signedNum negative (n / d) ≤ INT_MAX) :
    getSettingInMicrons fuel w this key = .ok (signedNum negative (n / d), w1) ∧
    ((Double.finite negative (n / d) 1).eq (mm.mul Double.thousand) = true ↔ n % d = 0) ∧
    (atof "0.0005" = mm → signedNum negative (n / d) = 0) ∧
    (atof "-1.5" = mm → signedNum negative (n / d) = -1500) ∧
    (atof "1.005" = mm → signedNum negative (n / d) = 1004) := by
  refine ⟨?_, ?_, ?_, ?_, ?_⟩
  · unfold getSettingInMicrons
    rw [hmm]
    simp only [hprod, Double.toInt, hfit, and_self, if_true]
  · rw [hprod]
    exact Double.eq_truncated_iff negative n d
  · intro h
    subst h
    have h2 : (atof "0.0005").mul Double.thousand = .finite false 1 2 := by decide
    rw [h2] at hprod
    cases hprod
    decide
  · intro h
    subst h
    have h2 : (atof "-1.5").mul Double.thousand = .finite true 1500 1 := by decide
    rw [h2] at hprod
    cases hprod
    decide
  · intro h
    subst h
    have h2 : (atof "1.005").mul Double.thousand
        = .finite false 8840073487319039 8796093022208 := by decide
    rw [h2] at hprod
    cases hprod
    decide

/-- Instance of C16 amended: a store holding `1.005` yields 1004 microns. -/
theorem getSettingInMicrons_spec_witness :
    getSettingInMicrons 1 ⟨[.base [("d", "1.005")] none], []⟩ 0 "d"
      = .ok (1004, ⟨[.base [("d", "1.005")] none], []⟩) :=
  (getSettingInMicrons_spec 1 ⟨[.base [("d", "1.005")] none], []⟩ 0 "d" (atof "1.005")
    ⟨[.base [("d", "1.005")] none], []⟩ false 8840073487319039 8796093022208
    (by decide) (by decide) (by decide)).1

/-! ## Frame of a write, prefix parsing of tokens -/

/-- C18 as stated fails on a cyclic parent chain: the store at 1 has the store at 0 as
parent, whose parent is the store at 1 again.  Before `setSetting("a", "2")` on the store
at 1 its parent answers `1` for `a`, afterwards it answers `2`: the lookup issued at the
parent passes through the written store. -/
theorem setSetting_frame_cycle_counterexample :
    getSettingString 2 ⟨[.base [] (some 1), .base [("a", "1")] (some 0)], []⟩ 0 "a"
      = .ok ("1", ⟨[.base [] (some 1), .base [("a", "1")] (some 0)], []⟩) ∧
    setSetting (fun _ => true) 1 ⟨[.base [] (some 1), .base [("a", "1")] (some 0)], []⟩ 1
        "a" "2"
      = .ok ⟨[.base [] (some 1), .base [("a", "2")] (some 0)], []⟩ ∧
    getSettingString 2 ⟨[.base [] (some 1), .base [("a", "2")] (some 0)], []⟩ 0 "a"
      = .ok ("2", ⟨[.base [] (some 1), .base [("a", "2")] (some 0)], []⟩) := by
  decide

/-- C18 amended (frame of `setSetting`): on a store `s` with mapping `m`, `setSetting(k, v)`
returns and changes only the entry of `k` in the mapping of `s`: `s` keeps its parent,
its new mapping holds `k = v` and agrees with `m` on every other key (presence and
value), and every other object of the heap, so the parent and every other ancestor, is
unchanged.  Consequently, when `s` is not its own ancestor, that is when the lookup of `k`
issued at the parent resolves along a chain of parent links that does not contain `s`, it
returns the same string after the call as before. -/
theorem setSetting_frame (reg : String → Bool) (w : World) (i : Nat) (m : SettingMap)
    (par : Option Nat) (k v : String) (f : Nat)
    (hn : w.heap[i]? = some (.base m par)) :
    ∃ w2 m2, setSetting reg (f + 1) w i k v = .ok w2 ∧
      w2.heap[i]? = some (.base m2 par) ∧
      m2.find k = some v ∧ (∀ k2, k2 ≠ k → m2.find k2 = m.find k2) ∧
      (∀ j, j ≠ i → w2.heap[j]? = w.heap[j]?) ∧
      (∀ (p : Nat) (rest : List Nat) (fuel : Nat), par = some p → i ∉ p :: rest →
        isChain w.heap (p :: rest) = true →
        ((∃ j ∈ p :: rest, localFind w.heap j k ≠ none) ∨
          ∃ mr, w.heap[rest.getLastD p]? = some (.base mr none)) →
        (p :: rest).length ≤ fuel →
        ∃ r wa wb, getSettingString fuel w p k = .ok (r, wa) ∧
          getSettingString fuel w2 p k = .ok (r, wb)) := by
  obtain ⟨w2, hset⟩ := setSetting_base_ok reg w i m par k v f hn
  have hheap : w2.heap = w.heap.set i (.base (m.assign k v) par) := by
    by_cases hr : reg k = true
    · simp only [setSetting, hn, hr, if_true] at hset
      cases hset
      rfl
    · simp only [setSetting, hn, hr] at hset
      cases hset
      rfl
  have hother : ∀ j, j ≠ i → w2.heap[j]? = w.heap[j]? := by
    intro j hj
    rw [hheap]
    exact heap_set_other _ _ _ _ hj
  refine ⟨w2, m.assign k v, hset, ?_, SettingMap.find_assign_same m k v,
    fun k2 h2 => SettingMap.find_assign_other m k v k2 h2, hother, ?_⟩
  · rw [hheap]
    exact heap_set_self _ _ _ _ hn
  · intro p rest fuel _ hni hc hcomp hf
    apply getSettingString_frame w w2 k rest p fuel hc _ hcomp hf
    intro j hj
    apply hother
    intro e
    rw [e] at hj
    exact hni hj

/-- Instance of C18 amended: the child at 1 of the root at 0 is written; the root still
answers `1` for the key. -/
theorem setSetting_frame_witness :
    ∃ w2 m2, setSetting (fun _ => true) 1
        ⟨[.base [("a", "1")] none, .base [("b", "x")] (some 0)], []⟩ 1 "a" "2" = .ok w2 ∧
      w2.heap[1]? = some (.base m2 (some 0)) ∧
      m2.find "a" = some "2" ∧
      (∀ k2, k2 ≠ "a" → m2.find k2 = SettingMap.find [("b", "x")] k2) ∧
      (∀ j, j ≠ 1 → w2.heap[j]?
        = [Node.base [("a", "1")] none, .base [("b", "x")] (some 0)][j]?) ∧
      ∃ r wa wb,
        getSettingString 1 ⟨[.base [("a", "1")] none, .base [("b", "x")] (some 0)], []⟩ 0 "a"
          = .ok (r, wa) ∧
        getSettingString 1 w2 0 "a" = .ok (r, wb) := by
  obtain ⟨w2, m2, h1, h2, h3, h4, h5, h6⟩ := setSetting_frame (fun _ => true)
    ⟨[.base [("a", "1")] none, .base [("b", "x")] (some 0)], []⟩ 1 [("b", "x")] (some 0)
    "a" "2" 0 (by decide)
  exact ⟨w2, m2, h1, h2, h3, h4, h5,
    h6 0 [] 1 rfl (by decide) (by decide) (Or.inl ⟨0, by decide, by decide⟩) (by decide)⟩

/-- C19 fails on the code: in `[[1e999,1],[50abc,200 C]]` the second token begins with
the numeric literals `50` and `200`, yet it contributes no point: `std::stod` throws
`std::out_of_range` on `1e999` of the first token, the loop has no handler for it, and
the call ends with that exception.  On its own `[50abc,200 C]` is read by numeric prefix
as `(50,200)` without any notice, and `[abc,1]` and `[,1]`, whose first text has no numeric
prefix, are skipped with one notice each. -/
theorem getSettingAsFlowTempGraph_prefix_tokens_aborted :
    getSettingAsFlowTempGraph 1
        ⟨[.base [("g", "[[1e999,1],[50abc,200 C]]")] none], []⟩ 0 "g"
      = .error (.exception "std::out_of_range") ∧
    getSettingAsFlowTempGraph 1 ⟨[.base [("g", "[50abc,200 C]")] none], []⟩ 0 "g"
      = .ok (⟨[(.ofNat 50, .ofNat 200)]⟩, ⟨[.base [("g", "[50abc,200 C]")] none], []⟩) ∧
    getSettingAsFlowTempGraph 1 ⟨[.base [("g", "[abc,1]")] none], []⟩ 0 "g"
      = .ok (⟨[]⟩, ⟨[.base [("g", "[abc,1]")] none],
          [tokenNotice "g" (['a', 'b', 'c'], ['1'])]⟩) ∧
    getSettingAsFlowTempGraph 1 ⟨[.base [("g", "[,1]")] none], []⟩ 0 "g"
      = .ok (⟨[]⟩, ⟨[.base [("g", "[,1]")] none], [tokenNotice "g" ([], ['1'])]⟩) := by
  decide

end cura
